import Mathlib

/-!
Verification of the wimlib WIM writer core (`src/write.c`) against its
natural-language specification.  The C code is shallowly embedded: machine
integers are `Nat` with explicit `% 2^64` where u64 overflow matters, file
I/O is a byte-list file model, fallible code returns `Except`, and the
external collaborators (SHA-1, the LZX/XPRESS compressors) are passed in as
function parameters, as §6.3 of the specification treats them as pure
external functions.
-/

namespace Wimlib

/-- `WIM_CHUNK_SIZE` from the WIM format: compression unit size. -/
def WIM_CHUNK_SIZE : Nat := 32768

/-- `SHA1_HASH_SIZE`: 20 bytes. -/
def SHA1_HASH_SIZE : Nat := 20

/-- Modulus of u64 arithmetic. -/
def U64_MOD : Nat := 2 ^ 64

/-- Modelled from the spec (§3): the `COMPRESSED` bit of the 8-bit
on-disk resource flags (`WIM_RESHDR_FLAG_COMPRESSED`); the numeric bit
assignment follows the WIM resource-header format (bit 2). The header that
defines the constant is not among the provided sources. -/
def WIM_RESHDR_FLAG_COMPRESSED : Nat := 4

/-- Compression type `WIMLIB_COMPRESSION_TYPE_NONE`. -/
def CTYPE_NONE : Nat := 0

/-- Compression type `WIMLIB_COMPRESSION_TYPE_LZX`. -/
def CTYPE_LZX : Nat := 1

/-- Compression type `WIMLIB_COMPRESSION_TYPE_XPRESS`. -/
def CTYPE_XPRESS : Nat := 2

/-- Error codes surfaced by the writer (`WIMLIB_ERR_*`). -/
inductive WimErr where
  | write
  | openErr
  | readErr
  | nomem
  | invalid_resource_hash
  | resource_order
  | already_locked
  | rename
  | reopen
  | no_filename
  | split_unsupported
  deriving DecidableEq, Repr

/-- Output-file model: a byte list plus a current position.  `fwrite`,
`fseeko`, and `ftruncate` in the embedded code never fail (the writer's own
error paths for them are I/O failures outside the embedding). -/
structure WFile where
  bytes : List Nat
  pos : Nat
  deriving DecidableEq, Repr

/-- `fwrite` at the current position: overwrite in place, zero-fill any gap,
extend the file as needed, and advance the position. -/
def WFile.writeB (f : WFile) (w : List Nat) : WFile :=
  { bytes := f.bytes.take f.pos ++ List.replicate (f.pos - f.bytes.length) 0
      ++ w ++ f.bytes.drop (f.pos + w.length),
    pos := f.pos + w.length }

/-- `fseeko(fp, p, SEEK_SET)`. -/
def WFile.seekTo (f : WFile) (p : Nat) : WFile := { f with pos := p }

/-- `fseeko(fp, 0, SEEK_END)`. -/
def WFile.seekEnd (f : WFile) : WFile := { f with pos := f.bytes.length }

/-- `ftruncate` to `n` bytes (zero-extends if the file is shorter, as POSIX
does); the position is unchanged. -/
def WFile.trunc (f : WFile) (n : Nat) : WFile :=
  { f with bytes := f.bytes.take n ++ List.replicate (n - f.bytes.length) 0 }

/-- `fflush_and_ftruncate` from write.c: flush (a no-op in the model) and
truncate to `size`. -/
def fflush_and_ftruncate (f : WFile) (size : Nat) : WFile := f.trunc size

/-- `struct resource_entry`: on-disk record of one resource. -/
structure ResourceEntry where
  offset : Nat
  size : Nat
  original_size : Nat
  flags : Nat
  deriving DecidableEq, Repr

/-- `struct wim_lookup_table_entry`, restricted to the fields the writer
reads: declared SHA-1, existing resource entry, compression type of the
existing resource, the stream's uncompressed bytes (`udata`) and its
existing encoded bytes (`cdata`, used only for raw copies), and the output
resource entry the parallel path fills in. -/
structure LTE where
  hash : List Nat
  resource_entry : ResourceEntry
  resource_ctype : Nat
  udata : List Nat
  cdata : List Nat
  output_resource_entry : ResourceEntry
  deriving DecidableEq, Repr

/-- `wim_resource_size`: the original (uncompressed) size. -/
def wim_resource_size (l : LTE) : Nat := l.resource_entry.original_size

/-- `wim_resource_compressed_size`: on-disk size of the existing encoded
form. -/
def wim_resource_compressed_size (l : LTE) : Nat := l.resource_entry.size

/-- `wim_resource_chunks`: number of chunks of the resource. -/
def wim_resource_chunks (l : LTE) : Nat :=
  ((wim_resource_size l + WIM_CHUNK_SIZE - 1) % U64_MOD) / WIM_CHUNK_SIZE

/-- Modelled from the spec (§6.2, `read_at`): `read_wim_resource` returns
exactly `len` bytes of the stream at `off`, or fails with `ReadError`; with
the RAW resource flag it reads the existing encoded bytes instead.  The
function itself lives in resource.c, which is not among the provided
sources. -/
def read_wim_resource (l : LTE) (len off : Nat) (rawFlag : Bool) :
    Except WimErr (List Nat) :=
  let src := if rawFlag then l.cdata else l.udata
  if off + len ≤ src.length then .ok ((src.drop off).take len)
  else .error .readErr

/-- External collaborators (§6.3): SHA-1 and the two compressors, treated
as pure functions.  A compressor returns `some out` when it succeeded in
compressing to smaller than the input, `none` when the chunk could not be
compressed smaller ("not smaller"). -/
structure Ext where
  sha1 : List Nat → List Nat
  lzx : List Nat → Option (List Nat)
  xpress : List Nat → Option (List Nat)

/-- `get_compress_func`: LZX if requested, otherwise XPRESS. -/
def get_compress_func (e : Ext) (out_ctype : Nat) :
    List Nat → Option (List Nat) :=
  if out_ctype = CTYPE_LZX then e.lzx else e.xpress

/-- `struct chunk_table` (in-memory per-resource table). -/
structure ChunkTable where
  file_offset : Nat
  num_chunks : Nat
  original_resource_size : Nat
  bytes_per_chunk_entry : Nat
  table_disk_size : Nat
  cur_offset : Nat
  offsets : List Nat
  deriving DecidableEq, Repr

/-- `begin_wim_resource_chunk_tab`: compute the table geometry (u64
arithmetic, hence the explicit `% 2^64` on `num_chunks - 1`) and reserve
`table_disk_size` placeholder bytes at the current file position.
Allocation is modelled as always succeeding. -/
def begin_wim_resource_chunk_tab (l : LTE) (f : WFile) (file_offset : Nat) :
    ChunkTable × WFile :=
  let size := wim_resource_size l
  let num_chunks := ((size + WIM_CHUNK_SIZE - 1) % U64_MOD) / WIM_CHUNK_SIZE
  let bpe := if size ≥ 2 ^ 32 then 8 else 4
  let tds := (bpe * ((num_chunks + (U64_MOD - 1)) % U64_MOD)) % U64_MOD
  let ct : ChunkTable :=
    { file_offset := file_offset
      num_chunks := num_chunks
      original_resource_size := size
      bytes_per_chunk_entry := bpe
      table_disk_size := tds
      cur_offset := 0
      offsets := [] }
  (ct, f.writeB (List.replicate tds 0))

/-- The chunk-table update performed for each written chunk
(`*chunk_tab->cur_offset_p++ = cur_offset; cur_offset += out_chunk_size`). -/
def chunk_tab_record (ct : ChunkTable) (n : Nat) : ChunkTable :=
  { ct with offsets := ct.offsets ++ [ct.cur_offset],
            cur_offset := (ct.cur_offset + n) % U64_MOD }

/-- The bytes actually written for one chunk: the compressor's output when
it succeeded, the raw chunk when it reported "not smaller". -/
def chosen_out (compress : List Nat → Option (List Nat)) (chunk : List Nat) :
    List Nat :=
  match compress chunk with
  | some c => c
  | none => chunk

/-- `write_wim_resource_chunk`: with a chunk table, try the compressor and
write whichever of the compressed/raw forms was chosen, recording its size;
without one, write the raw bytes. -/
def write_wim_resource_chunk (compress : List Nat → Option (List Nat))
    (chunk : List Nat) (f : WFile) (ct? : Option ChunkTable) :
    WFile × Option ChunkTable :=
  match ct? with
  | some ct =>
      let outChunk := chosen_out compress chunk
      (f.writeB outChunk, some (chunk_tab_record ct outChunk.length))
  | none => (f.writeB chunk, none)

/-- Little-endian serialization of `n` at `w` bytes (truncating, as the
C stores `cpu_to_le32`/`cpu_to_le64` into a `w`-byte slot). -/
def leBytes : Nat → Nat → List Nat
  | 0, _ => []
  | w + 1, n => n % 256 :: leBytes w (n / 256)

/-- `finish_wim_resource_chunk_tab`: seek to the reserved offset, write
`table_disk_size` bytes of the offset array skipping the first entry
(the write starts `bytes_per_chunk_entry` bytes into the converted array;
unrecorded slots are the calloc'ed zeros), seek to the end, and return
`cur_offset + table_disk_size` (u64). -/
def finish_wim_resource_chunk_tab (ct : ChunkTable) (f : WFile) :
    WFile × Nat :=
  let ser := ((ct.offsets.drop 1).flatMap (leBytes ct.bytes_per_chunk_entry)
      ++ List.replicate ct.table_disk_size 0).take ct.table_disk_size
  let f2 := (f.seekTo ct.file_offset).writeB ser
  (f2.seekEnd, (ct.cur_offset + ct.table_disk_size) % U64_MOD)

/-- The `WIMLIB_RESOURCE_FLAG_*` bits passed to `write_wim_resource`,
modelled as a structure of booleans (only distinctness of the bits is used
by the code). -/
structure ResFlags where
  recompress : Bool := false
  raw : Bool := false
  deriving DecidableEq, Repr

/-- The raw-copy decision of `write_wim_resource` (write.c:446-448): copy
the already-encoded bytes without recompressing exactly when the existing
compression type equals the output type, the output type is not NONE, and
`RECOMPRESS` was not requested. -/
def resource_is_raw (l : LTE) (out_ctype : Nat) (fl : ResFlags) : Bool :=
  l.resource_ctype == out_ctype && !(out_ctype == CTYPE_NONE)
    && !fl.recompress

/-- Is the all-zero declared hash ("unknown; set on first write")?
(`is_zero_hash`). -/
def is_zero_hash (h : List Nat) : Prop := h = List.replicate SHA1_HASH_SIZE 0

instance (h : List Nat) : Decidable (is_zero_hash h) := by
  unfold is_zero_hash; infer_instance

/-- The chunk read/write loop of `write_wim_resource` (the `do … while
(bytes_remaining)` at write.c:499-512), entered with `remaining ≠ 0`:
read `min(remaining, WIM_CHUNK_SIZE)` bytes, accumulate them for SHA-1
unless doing a raw copy, and write the chunk (compressing and recording in
the chunk table when one is present). -/
def write_chunks_loop (compress : List Nat → Option (List Nat)) (l : LTE)
    (rawFlag : Bool) (remaining offset : Nat) (acc : List Nat)
    (f : WFile) (ct : Option ChunkTable) :
    Except WimErr (List Nat × WFile × Option ChunkTable) :=
  if remaining = 0 then .ok (acc, f, ct)
  else
    let to_read := min remaining WIM_CHUNK_SIZE
    match read_wim_resource l to_read offset rawFlag with
    | .error er => .error er
    | .ok buf =>
        let acc' := if rawFlag then acc else acc ++ buf
        let p := write_wim_resource_chunk compress buf f ct
        write_chunks_loop compress l rawFlag (remaining - to_read)
          (offset + to_read) acc' p.1 p.2
  termination_by remaining
  decreasing_by
    simp only [WIM_CHUNK_SIZE]
    omega

mutual

/-- `write_uncompressed_resource_and_truncate`: seek back to
`file_offset`, rewrite the resource uncompressed, and truncate the file to
`file_offset + wim_resource_size`. -/
def write_uncompressed_resource_and_truncate (e : Ext) (l : LTE) (f : WFile)
    (file_offset : Nat) (entry0 : ResourceEntry) (entryPresent : Bool) :
    Except WimErr (WFile × ResourceEntry × LTE) :=
  match write_wim_resource e l (f.seekTo file_offset) CTYPE_NONE entry0
      entryPresent {} with
  | .error er => .error er
  | .ok (f2, en, l2) =>
      .ok (fflush_and_ftruncate f2 (file_offset + wim_resource_size l2),
           en, l2)
  termination_by (1 : Nat)
  decreasing_by simp [CTYPE_NONE]

/-- `write_wim_resource`: write one stream, raw-copying when the
compression types match (without `RECOMPRESS`), returning immediately for
empty input, otherwise chunking, hashing and (for a compressed output
type) building a chunk table; verify or adopt the SHA-1; fall back to an
uncompressed rewrite when the encoded form is not smaller.  `entry0` is
the previous content of `*out_res_entry` and `entryPresent` its
non-NULLness; opening the source (`prepare_resource_for_read`) is modelled
as succeeding. -/
def write_wim_resource (e : Ext) (l : LTE) (f : WFile) (out_ctype : Nat)
    (entry0 : ResourceEntry) (entryPresent : Bool) (fl : ResFlags) :
    Except WimErr (WFile × ResourceEntry × LTE) :=
  let original_size := wim_resource_size l
  let old_compressed_size := wim_resource_compressed_size l
  let file_offset := f.pos
  let raw : Bool := resource_is_raw l out_ctype fl
  let bytes_remaining := if raw then old_compressed_size else original_size
  if bytes_remaining = 0 then .ok (f, entry0, l)
  else
    let ctf : Option ChunkTable × WFile :=
      if out_ctype ≠ CTYPE_NONE ∧ raw = false then
        let p := begin_wim_resource_chunk_tab l f file_offset
        (some p.1, p.2)
      else (none, f)
    match write_chunks_loop (get_compress_func e out_ctype) l raw
        bytes_remaining 0 [] ctf.2 ctf.1 with
    | .error er => .error er
    | .ok (acc, f2, ct2) =>
        let fin : Except WimErr (Nat × WFile) :=
          if raw then .ok (old_compressed_size, f2)
          else if out_ctype = CTYPE_NONE then .ok (original_size, f2)
          else
            match ct2 with
            | some ct => let p := finish_wim_resource_chunk_tab ct f2
                         .ok (p.2, p.1)
            | none => .error .write
        match fin with
        | .error er => .error er
        | .ok (new_compressed_size, f3) =>
            let hashStep : Except WimErr LTE :=
              if raw then .ok l
              else
                let md := e.sha1 acc
                if is_zero_hash l.hash then .ok { l with hash := md }
                else if md ≠ l.hash then .error .invalid_resource_hash
                else .ok l
            match hashStep with
            | .error er => .error er
            | .ok l2 =>
                if h : raw = false ∧ new_compressed_size ≥ original_size
                    ∧ out_ctype ≠ CTYPE_NONE then
                  write_uncompressed_resource_and_truncate e l2 f3
                    file_offset entry0 entryPresent
                else
                  let en :=
                    if entryPresent then
                      { size := new_compressed_size
                        original_size := original_size
                        offset := file_offset
                        flags :=
                          if out_ctype ≠ CTYPE_NONE then
                            (l2.resource_entry.flags &&& 0xFB)
                              ||| WIM_RESHDR_FLAG_COMPRESSED
                          else l2.resource_entry.flags &&& 0xFB }
                    else entry0
                  .ok (f3, en, l2)
  termination_by (if out_ctype = CTYPE_NONE then 0 else 2 : Nat)
  decreasing_by simp [h.2.2]

end

/-- The per-stream SHA-1 check the parallel pipeline's I/O thread performs
once the dispatch cursor has read a stream's last chunk
(write.c:924-947): finalize the digest of the bytes read and compare it
with the declared hash with `hashes_equal`; on disagreement fail with
`WIMLIB_ERR_INVALID_RESOURCE_HASH`.  (Note: unlike `write_wim_resource`,
there is no `is_zero_hash` branch here.) -/
def main_writer_check_stream_hash (e : Ext) (l : LTE) (shaAcc : List Nat) :
    Except WimErr (List Nat) :=
  let next_hash := e.sha1 shaAcc
  if l.hash = next_hash then .ok next_hash
  else .error .invalid_resource_hash

/-- The step the parallel pipeline's I/O thread performs when the last
chunk of the stream currently being written has been drained
(write.c:1113-1148): finish the chunk table, and either fall back to an
uncompressed rewrite (when `res_csize >= wim_resource_size(cur_lte)`) or
publish the resource entry with the `COMPRESSED` flag set. -/
def main_writer_finish_stream (e : Ext) (l : LTE) (ct : ChunkTable)
    (f : WFile) : Except WimErr (WFile × LTE) :=
  let p := finish_wim_resource_chunk_tab ct f
  let f1 := p.1
  let res_csize := p.2
  if res_csize ≥ wim_resource_size l then
    match write_uncompressed_resource_and_truncate e l f1 ct.file_offset
        l.output_resource_entry true with
    | .error er => .error er
    | .ok (f2, en, l2) => .ok (f2, { l2 with output_resource_entry := en })
  else
    .ok (f1,
      { l with output_resource_entry :=
          { size := res_csize
            original_size := l.resource_entry.original_size
            offset := ct.file_offset
            flags := l.resource_entry.flags ||| WIM_RESHDR_FLAG_COMPRESSED } })

/-- The `WIMLIB_WRITE_FLAG_*` bits, modelled as a structure of booleans
(the numeric bit values live in a header that is not among the provided
sources; the code only tests individual bits). -/
structure WriteFlags where
  check_integrity : Bool := false
  show_progress : Bool := false
  recompress : Bool := false
  fsync : Bool := false
  soft_delete : Bool := false
  rebuild : Bool := false
  no_lookup_table : Bool := false
  reuse_integrity_table : Bool := false
  checkpoint_after_xml : Bool := false
  deriving DecidableEq, Repr

/-- `write_flags &= WIMLIB_WRITE_MASK_PUBLIC`: clear the private bits. -/
def mask_public (w : WriteFlags) : WriteFlags :=
  { w with no_lookup_table := false, reuse_integrity_table := false,
           checkpoint_after_xml := false }

/-- The parts of `struct wim_header` the overwrite controller reads. -/
structure WimHeader where
  integrity : ResourceEntry
  xml_res_entry : ResourceEntry
  lookup_table_res_entry : ResourceEntry
  image_count : Nat
  total_parts : Nat
  deriving DecidableEq, Repr

/-- The parts of `WIMStruct` the overwrite controller reads. -/
structure WIMStruct where
  hdr : WimHeader
  deletion_occurred : Bool
  image_modified : List Bool
  has_filename : Bool
  wim_locked : Bool
  deriving DecidableEq, Repr

/-- `any_images_modified`. -/
def any_images_modified (w : WIMStruct) : Bool := w.image_modified.any id

/-- `EWOULDBLOCK` (only its distinctness from other errno values is
used). -/
def EWOULDBLOCK : Nat := 11

/-- `lock_wim`: try a non-blocking exclusive `flock` (whose outcome is the
parameter `flock_errno`: `none` = success, `some e` = failure with errno
`e`).  `EWOULDBLOCK` becomes `WIMLIB_ERR_ALREADY_LOCKED`; any other
failure is downgraded to a warning, returning success with the WIM left
unlocked.  Returns `(ret, wim_locked afterwards)`. -/
def lock_wim (fp_present wim_locked : Bool) (flock_errno : Option Nat) :
    Option WimErr × Bool :=
  if fp_present ∧ wim_locked = false then
    match flock_errno with
    | none => (none, true)
    | some e =>
        if e = EWOULDBLOCK then (some .already_locked, false)
        else (none, false)
  else (none, wim_locked)

/-- Outcomes of the external steps `overwrite_wim_inplace` performs, so the
control flow can be analysed for every combination (`none` = the step
succeeded). -/
structure InplaceEnv where
  find_streams_ret : Option WimErr
  stream_list_empty : Bool
  open_ok : Bool
  flock_errno : Option Nat
  seek_ok : Bool
  write_streams_ret : Option WimErr
  write_metadata_ret : Option WimErr
  finish_write_ret : Option WimErr
  deriving DecidableEq, Repr

/-- What `overwrite_wim_inplace` did: its return value and whether (and to
what length) it truncated the archive on the error path. -/
structure InplaceResult where
  ret : Option WimErr
  truncated_to : Option Nat
  deriving DecidableEq, Repr

/-- The write phase of `overwrite_wim_inplace` (write.c:1917-1943): the
first failure among writing the new streams (skipped when the stream list
is empty), writing the modified images' metadata (skipped when no image
was modified), and `finish_write`; `none` when all succeeded. -/
def inplace_write_phase (w : WIMStruct) (env : InplaceEnv) : Option WimErr :=
  match (if env.stream_list_empty then none else env.write_streams_ret) with
  | some er => some er
  | none =>
      match (if any_images_modified w then env.write_metadata_ret
             else none) with
      | some er => some er
      | none => env.finish_write_ret

/-- `overwrite_wim_inplace` (write.c:1851-1955): check the resource order,
compute `old_wim_end`, take the no-lookup-table shortcut when nothing was
modified or deleted, find the streams to append, open, lock, seek to
`old_wim_end`, write streams / metadata / trailer, and on failure truncate
back to `old_wim_end` -- but only when `WIMLIB_WRITE_FLAG_NO_LOOKUP_TABLE`
is not set. -/
def overwrite_wim_inplace (w : WIMStruct) (wf : WriteFlags)
    (env : InplaceEnv) : InplaceResult :=
  if w.hdr.integrity.offset ≠ 0 ∧
      w.hdr.integrity.offset < w.hdr.xml_res_entry.offset then
    ⟨some .resource_order, none⟩
  else if w.hdr.lookup_table_res_entry.offset >
      w.hdr.xml_res_entry.offset then
    ⟨some .resource_order, none⟩
  else
    let old_wim_end0 :=
      if w.hdr.integrity.offset ≠ 0 then
        w.hdr.integrity.offset + w.hdr.integrity.size
      else w.hdr.xml_res_entry.offset + w.hdr.xml_res_entry.size
    let noMod : Bool := !w.deletion_occurred && !any_images_modified w
    let old_wim_end :=
      if noMod then
        w.hdr.lookup_table_res_entry.offset +
          w.hdr.lookup_table_res_entry.size
      else old_wim_end0
    let wf1 :=
      if noMod then
        { wf with no_lookup_table := true, checkpoint_after_xml := true }
      else wf
    match env.find_streams_ret with
    | some er => ⟨some er, none⟩
    | none =>
        if env.open_ok = false then ⟨some .openErr, none⟩
        else
          match lock_wim true w.wim_locked env.flock_errno with
          | (some er, _) => ⟨some er, none⟩
          | (none, _) =>
              if env.seek_ok = false then ⟨some .write, none⟩
              else
                let ret := inplace_write_phase w env
                let wf2 := { wf1 with reuse_integrity_table := true }
                ⟨ret,
                 if ret ≠ none ∧ wf2.no_lookup_table = false then
                   some old_wim_end
                 else none⟩

/-- Outcomes of the two strategies, for `wimlib_overwrite`'s strategy
selection. -/
structure OverwriteEnv where
  inplace_ret : Option WimErr
  tmpfile_ret : Option WimErr
  deriving DecidableEq, Repr

/-- What `wimlib_overwrite` did: which strategies it attempted and its
return value. -/
structure OverwriteResult where
  ret : Option WimErr
  tried_inplace : Bool
  tried_rebuild : Bool
  deriving DecidableEq, Repr

/-- `wimlib_overwrite` (write.c:2037-2065): mask the flags to the public
set; refuse when there is no filename or the WIM is split; attempt the
in-place overwrite unless `REBUILD` was requested or a deletion occurred
without `SOFT_DELETE`; fall back to the rebuild-via-tempfile exactly when
the in-place attempt failed with `WIMLIB_ERR_RESOURCE_ORDER`, returning
every other in-place result directly. -/
def wimlib_overwrite (w : WIMStruct) (wf0 : WriteFlags)
    (env : OverwriteEnv) : OverwriteResult :=
  let wf := mask_public wf0
  if w.has_filename = false then ⟨some .no_filename, false, false⟩
  else if w.hdr.total_parts ≠ 1 then ⟨some .split_unsupported, false, false⟩
  else if (w.deletion_occurred = false ∨ wf.soft_delete = true)
      ∧ wf.rebuild = false then
    if env.inplace_ret = some .resource_order then
      ⟨env.tmpfile_ret, true, true⟩
    else ⟨env.inplace_ret, true, false⟩
  else ⟨env.tmpfile_ret, false, true⟩

/-- The accumulation loop at the top of `write_stream_list`
(write.c:1370-1379): total byte count of the streams that will actually be
sent to a compressor (`out_ctype` is not NONE, and the stream's existing
compression type differs or `RECOMPRESS` is given). -/
def total_compression_bytes (sl : List LTE) (out_ctype : Nat)
    (wf : WriteFlags) : Nat :=
  sl.foldl
    (fun acc l =>
      if out_ctype ≠ CTYPE_NONE ∧
          (l.resource_ctype ≠ out_ctype ∨ wf.recompress = true) then
        acc + wim_resource_size l
      else acc) 0

/-- Did `write_stream_list` (write.c:1387-1403) dispatch to the parallel
pipeline? -/
def write_stream_list_uses_parallel (sl : List LTE) (out_ctype : Nat)
    (wf : WriteFlags) (num_threads : Nat) : Bool :=
  decide (total_compression_bytes sl out_ctype wf ≥ 1000000
            ∧ num_threads ≠ 1)

/-- Outcomes of the fallible steps inside `write_stream_list_parallel`. -/
structure ParallelEnv where
  default_threads_ok : Bool
  queue1_ok : Bool
  queue2_ok : Bool
  alloc_ok : Bool
  thread_create_fail : Bool
  main_ret : Option WimErr
  deriving DecidableEq, Repr

/-- Result of `write_stream_list_parallel`: either it fell back to
`write_stream_list_serial`, or it finished with the given return value. -/
inductive ParallelOutcome where
  | serial_fallback
  | done (ret : Option WimErr)
  deriving DecidableEq, Repr

/-- `write_stream_list_parallel` (write.c:1249-1351): fall back to the
serial path when the online-CPU count cannot be determined (requested
thread count 0), when a queue or the thread array cannot be allocated
(`WIMLIB_ERR_NOMEM`), when creating a compressor thread fails (`ret`
becomes negative), or when `main_writer_thread_proc` returns
`WIMLIB_ERR_NOMEM`; any other result is returned as is. -/
def write_stream_list_parallel (num_threads : Nat) (env : ParallelEnv) :
    ParallelOutcome :=
  if num_threads = 0 ∧ env.default_threads_ok = false then .serial_fallback
  else if env.queue1_ok = false then .serial_fallback
  else if env.queue2_ok = false then .serial_fallback
  else if env.alloc_ok = false then .serial_fallback
  else if env.thread_create_fail then .serial_fallback
  else if env.main_ret = some .nomem then .serial_fallback
  else .done env.main_ret

/-- The full dispatch of `write_stream_list`: whether the serial writer
ends up running (directly, or as the parallel path's fallback). -/
def write_stream_list_runs_serial (sl : List LTE) (out_ctype : Nat)
    (wf : WriteFlags) (num_threads : Nat) (env : ParallelEnv) : Bool :=
  if write_stream_list_uses_parallel sl out_ctype wf num_threads then
    write_stream_list_parallel num_threads env == .serial_fallback
  else true

/-- The number of bytes `write_wim_resource` copies: the existing encoded
size for a raw copy, the original size otherwise (write.c:450-456). -/
def bytes_to_copy (l : LTE) (out_ctype : Nat) (fl : ResFlags) : Nat :=
  if resource_is_raw l out_ctype fl then wim_resource_compressed_size l
  else wim_resource_size l

/-- Split a byte list into `WIM_CHUNK_SIZE`-sized chunks (the last chunk
may be shorter). -/
def chunksOf (l : List Nat) : List (List Nat) :=
  if l = [] then []
  else l.take WIM_CHUNK_SIZE :: chunksOf (l.drop WIM_CHUNK_SIZE)
  termination_by l.length
  decreasing_by
    simp only [List.length_drop, WIM_CHUNK_SIZE]
    have : l.length ≠ 0 := fun h => by
      simp [List.length_eq_zero.mp h] at *
    omega

/-- Total size of the per-chunk outputs the writer chooses (compressed
when smaller, raw otherwise): the body size of a compressed resource,
excluding the chunk table. -/
def sum_encoded (compress : List Nat → Option (List Nat))
    (data : List Nat) : Nat :=
  ((chunksOf data).map (fun c => (chosen_out compress c).length)).sum

/-- The encoded body size of a compressed resource of original size `size`
with uncompressed content `data`: the chunk table's disk size plus the
chosen per-chunk output sizes.  This is the value
`finish_wim_resource_chunk_tab` reports (in the overflow-free regime). -/
def encoded_body_size (compress : List Nat → Option (List Nat))
    (size : Nat) (data : List Nat) : Nat :=
  (if size ≥ 2 ^ 32 then 8 else 4)
      * ((size + WIM_CHUNK_SIZE - 1) / WIM_CHUNK_SIZE - 1)
    + sum_encoded compress data

/-- Concrete external collaborators for the concrete runs: a constant
SHA-1 and compressors that always report "not smaller". -/
def sampleExt : Ext :=
  { sha1 := fun _ => List.replicate 20 1,
    lzx := fun _ => none,
    xpress := fun _ => none }

/-- A garbage previous value of `*out_res_entry`. -/
def sampleEntry : ResourceEntry := ⟨7, 7, 7, 7⟩

/-- A 10-byte output file positioned at its end. -/
def sampleFile : WFile := ⟨List.replicate 10 9, 10⟩

/-- A 5-byte uncompressed stream whose declared hash matches
`sampleExt.sha1`. -/
def sampleStream : LTE :=
  { hash := List.replicate 20 1,
    resource_entry := ⟨0, 0, 5, 0⟩,
    resource_ctype := 0,
    udata := [1, 2, 3, 4, 5],
    cdata := [],
    output_resource_entry := sampleEntry }

/-- An empty (size-0) stream. -/
def emptyStream : LTE :=
  { sampleStream with resource_entry := ⟨0, 0, 0, 0⟩, udata := [] }

/-- A stream with the all-zero ("unknown") declared hash. -/
def zeroHashStream : LTE := { sampleStream with hash := List.replicate 20 0 }

/-- A finished chunk table for `sampleStream` as the parallel path's drain
phase would hold it: one chunk, stored raw (5 bytes), no table bytes. -/
def sampleChunkTab : ChunkTable :=
  { file_offset := 10, num_chunks := 1, original_resource_size := 5,
    bytes_per_chunk_entry := 4, table_disk_size := 0, cur_offset := 5,
    offsets := [0] }

/-- A chunk table with two recorded chunks, for exercising
`finish_wim_resource_chunk_tab`. -/
def twoChunkTab : ChunkTable :=
  { file_offset := 3, num_chunks := 2, original_resource_size := 40000,
    bytes_per_chunk_entry := 4, table_disk_size := 4, cur_offset := 30,
    offsets := [0, 17] }

/-- A header whose lookup table precedes the XML data and that has no
integrity table. -/
def sampleHdr : WimHeader :=
  { integrity := ⟨0, 0, 0, 0⟩,
    xml_res_entry := ⟨100, 20, 20, 0⟩,
    lookup_table_res_entry := ⟨80, 20, 20, 0⟩,
    image_count := 1, total_parts := 1 }

/-- A WIM on which a deletion occurred (so the overwrite appends a new
lookup table). -/
def sampleWim : WIMStruct :=
  { hdr := sampleHdr, deletion_occurred := true, image_modified := [false],
    has_filename := true, wim_locked := false }

/-- A WIM with no deletion and no modified image: `overwrite_wim_inplace`
takes the `NO_LOOKUP_TABLE | CHECKPOINT_AFTER_XML` shortcut on it. -/
def noModWim : WIMStruct := { sampleWim with deletion_occurred := false }

/-- An `overwrite_wim_inplace` run in which every external step
succeeds. -/
def okEnv : InplaceEnv :=
  { find_streams_ret := none, stream_list_empty := false, open_ok := true,
    flock_errno := none, seek_ok := true, write_streams_ret := none,
    write_metadata_ret := none, finish_write_ret := none }

/-- A run in which only `finish_write` fails. -/
def failFinishEnv : InplaceEnv := { okEnv with finish_write_ret := some .write }

/-- A parallel run whose main writer thread reports `OutOfMemory`. -/
def nomemEnv : ParallelEnv :=
  { default_threads_ok := true, queue1_ok := true, queue2_ok := true,
    alloc_ok := true, thread_create_fail := false, main_ret := some .nomem }


theorem WFile.trunc_length (f : WFile) (n : Nat) :
    (f.trunc n).bytes.length = n := by
  simp [WFile.trunc]
  omega

theorem flag_or_and (x : Nat) :
    (x ||| WIM_RESHDR_FLAG_COMPRESSED) &&& WIM_RESHDR_FLAG_COMPRESSED
      = WIM_RESHDR_FLAG_COMPRESSED := by
  apply Nat.eq_of_testBit_eq
  intro i
  simp only [Nat.testBit_and, Nat.testBit_or, WIM_RESHDR_FLAG_COMPRESSED]
  cases h : Nat.testBit 4 i <;> simp [h]

theorem flag_mask_and (x : Nat) :
    (x &&& 0xFB) &&& WIM_RESHDR_FLAG_COMPRESSED = 0 := by
  apply Nat.eq_of_testBit_eq
  intro i
  simp only [Nat.testBit_and, WIM_RESHDR_FLAG_COMPRESSED, Nat.zero_testBit]
  by_cases hi : i = 2
  · subst hi
    have h251 : Nat.testBit 251 2 = false := by decide
    simp [h251]
  · have h4 : Nat.testBit 4 i = false := by
      have h := @Nat.testBit_two_pow 2 i
      norm_num at h
      simp [h, hi, Ne.symm hi]
    simp [h4]

theorem chunksOf_nil : chunksOf [] = [] := by
  rw [chunksOf]
  simp

theorem chunksOf_ne_nil (l : List Nat) (h : l ≠ []) :
    chunksOf l = l.take WIM_CHUNK_SIZE :: chunksOf (l.drop WIM_CHUNK_SIZE) := by
  rw [chunksOf]
  simp [h]

theorem sum_encoded_nil (c : List Nat → Option (List Nat)) :
    sum_encoded c [] = 0 := by
  simp [sum_encoded, chunksOf_nil]

theorem sum_encoded_ne_nil (c : List Nat → Option (List Nat))
    (data : List Nat) (h : data ≠ []) :
    sum_encoded c data = (chosen_out c (data.take WIM_CHUNK_SIZE)).length
      + sum_encoded c (data.drop WIM_CHUNK_SIZE) := by
  simp [sum_encoded, chunksOf_ne_nil _ h]

theorem chosen_out_length_le (c : List Nat → Option (List Nat))
    (chunk : List Nat) (hc : ∀ x o, c x = some o → o.length < x.length) :
    (chosen_out c chunk).length ≤ chunk.length := by
  unfold chosen_out
  cases h : c chunk with
  | some o => exact le_of_lt (hc _ _ h)
  | none => exact le_refl _

theorem sum_encoded_le_aux (c : List Nat → Option (List Nat))
    (hc : ∀ x o, c x = some o → o.length < x.length) :
    ∀ (n : Nat) (data : List Nat), data.length ≤ n →
      sum_encoded c data ≤ data.length := by
  intro n
  induction n with
  | zero =>
      intro data h
      have hd : data = [] := List.length_eq_zero.mp (Nat.le_zero.mp h)
      simp [hd, sum_encoded_nil]
  | succ n ih =>
      intro data h
      by_cases hd : data = []
      · simp [hd, sum_encoded_nil]
      · rw [sum_encoded_ne_nil _ _ hd]
        have h1 := chosen_out_length_le c (data.take WIM_CHUNK_SIZE) hc
        have h2 : sum_encoded c (data.drop WIM_CHUNK_SIZE)
            ≤ (data.drop WIM_CHUNK_SIZE).length := by
          apply ih
          have hpos : 0 < data.length := List.length_pos.mpr hd
          simp only [List.length_drop, WIM_CHUNK_SIZE]
          omega
        have h3 : (data.take WIM_CHUNK_SIZE).length
            = min WIM_CHUNK_SIZE data.length := List.length_take _ _
        have h4 : (data.drop WIM_CHUNK_SIZE).length
            = data.length - WIM_CHUNK_SIZE := List.length_drop _ _
        simp only [WIM_CHUNK_SIZE] at *
        omega

theorem sum_encoded_le (c : List Nat → Option (List Nat))
    (data : List Nat) (hc : ∀ x o, c x = some o → o.length < x.length) :
    sum_encoded c data ≤ data.length :=
  sum_encoded_le_aux c hc data.length data (le_refl _)
theorem write_chunks_loop_none (compress : List Nat → Option (List Nat))
    (l : LTE) :
    ∀ (n offset : Nat) (acc : List Nat) (f : WFile),
      offset + n = l.udata.length →
      ∃ f', write_chunks_loop compress l false n offset acc f none =
        .ok (acc ++ l.udata.drop offset, f', none) := by
  intro n
  induction n using Nat.strong_induction_on with
  | _ n ih =>
    intro offset acc f hlen
    rw [write_chunks_loop]
    by_cases h0 : n = 0
    · subst h0
      refine ⟨f, ?_⟩
      have hdrop : l.udata.drop offset = [] :=
        List.drop_eq_nil_of_le (by omega)
      simp [hdrop]
    · rw [if_neg h0]
      have hread : read_wim_resource l (min n WIM_CHUNK_SIZE) offset false =
          .ok ((l.udata.drop offset).take (min n WIM_CHUNK_SIZE)) := by
        unfold read_wim_resource
        simp only [Bool.false_eq_true, if_false, if_neg]
        rw [if_pos (by omega)]
      simp only [hread, Bool.false_eq_true, if_false, write_wim_resource_chunk]
      have hlt : n - min n WIM_CHUNK_SIZE < n := by
        have : 0 < WIM_CHUNK_SIZE := by norm_num [WIM_CHUNK_SIZE]
        omega
      obtain ⟨f', heq⟩ := ih (n - min n WIM_CHUNK_SIZE) hlt
        (offset + min n WIM_CHUNK_SIZE)
        (acc ++ (l.udata.drop offset).take (min n WIM_CHUNK_SIZE))
        (WFile.writeB f ((l.udata.drop offset).take (min n WIM_CHUNK_SIZE)))
        (by omega)
      refine ⟨f', ?_⟩
      rw [heq]
      have hjoin : (l.udata.drop offset).take (min n WIM_CHUNK_SIZE)
          ++ l.udata.drop (offset + min n WIM_CHUNK_SIZE)
          = l.udata.drop offset := by
        have h1 : l.udata.drop (offset + min n WIM_CHUNK_SIZE)
            = (l.udata.drop offset).drop (min n WIM_CHUNK_SIZE) := by
          rw [List.drop_drop]
        rw [h1, List.take_append_drop]
      rw [List.append_assoc, hjoin]
theorem write_chunks_loop_some (compress : List Nat → Option (List Nat))
    (l : LTE) (hc : ∀ x o, compress x = some o → o.length < x.length) :
    ∀ (n offset : Nat) (acc : List Nat) (f : WFile) (ct : ChunkTable),
      offset + n = l.udata.length →
      ct.cur_offset + n < U64_MOD →
      ∃ f' off',
        write_chunks_loop compress l false n offset acc f (some ct) =
          .ok (acc ++ l.udata.drop offset, f',
            some { ct with
              cur_offset := ct.cur_offset
                + sum_encoded compress (l.udata.drop offset),
              offsets := off' }) := by
  intro n
  induction n using Nat.strong_induction_on with
  | _ n ih =>
    intro offset acc f ct hlen hbound
    rw [write_chunks_loop]
    by_cases h0 : n = 0
    · subst h0
      refine ⟨f, ct.offsets, ?_⟩
      have hdrop : l.udata.drop offset = [] :=
        List.drop_eq_nil_of_le (by omega)
      simp [hdrop, sum_encoded_nil]
    · rw [if_neg h0]
      have hread : read_wim_resource l (min n WIM_CHUNK_SIZE) offset false =
          .ok ((l.udata.drop offset).take (min n WIM_CHUNK_SIZE)) := by
        unfold read_wim_resource
        simp only [Bool.false_eq_true, if_false, if_neg]
        rw [if_pos (by omega)]
      have hbuflen : ((l.udata.drop offset).take (min n WIM_CHUNK_SIZE)).length
          = min n WIM_CHUNK_SIZE := by
        simp only [List.length_take, List.length_drop]
        omega
      have hchlen : (chosen_out compress
            ((l.udata.drop offset).take (min n WIM_CHUNK_SIZE))).length
          ≤ min n WIM_CHUNK_SIZE := by
        have := chosen_out_length_le compress
          ((l.udata.drop offset).take (min n WIM_CHUNK_SIZE)) hc
        omega
      simp only [hread, Bool.false_eq_true, if_false, write_wim_resource_chunk,
        chunk_tab_record]
      have hmod : (ct.cur_offset + (chosen_out compress
            ((l.udata.drop offset).take (min n WIM_CHUNK_SIZE))).length)
          % U64_MOD
          = ct.cur_offset + (chosen_out compress
            ((l.udata.drop offset).take (min n WIM_CHUNK_SIZE))).length := by
        apply Nat.mod_eq_of_lt
        omega
      rw [hmod]
      have hlt : n - min n WIM_CHUNK_SIZE < n := by
        have : 0 < WIM_CHUNK_SIZE := by norm_num [WIM_CHUNK_SIZE]
        omega
      obtain ⟨f', off', heq⟩ := ih (n - min n WIM_CHUNK_SIZE) hlt
        (offset + min n WIM_CHUNK_SIZE)
        (acc ++ (l.udata.drop offset).take (min n WIM_CHUNK_SIZE))
        (WFile.writeB f (chosen_out compress
          ((l.udata.drop offset).take (min n WIM_CHUNK_SIZE))))
        { ct with
          cur_offset := ct.cur_offset + (chosen_out compress
            ((l.udata.drop offset).take (min n WIM_CHUNK_SIZE))).length,
          offsets := ct.offsets ++ [ct.cur_offset] }
        (by omega) (by simp only; omega)
      refine ⟨f', off', ?_⟩
      have hjoin : (l.udata.drop offset).take (min n WIM_CHUNK_SIZE)
          ++ l.udata.drop (offset + min n WIM_CHUNK_SIZE)
          = l.udata.drop offset := by
        have h1 : l.udata.drop (offset + min n WIM_CHUNK_SIZE)
            = (l.udata.drop offset).drop (min n WIM_CHUNK_SIZE) := by
          rw [List.drop_drop]
        rw [h1, List.take_append_drop]
      have hsum : (chosen_out compress
            ((l.udata.drop offset).take (min n WIM_CHUNK_SIZE))).length
          + sum_encoded compress (l.udata.drop (offset + min n WIM_CHUNK_SIZE))
          = sum_encoded compress (l.udata.drop offset) := by
        have hdne : l.udata.drop offset ≠ [] := by
          apply List.ne_nil_of_length_pos
          simp only [List.length_drop]
          omega
        rw [sum_encoded_ne_nil _ _ hdne]
        have h1 : l.udata.drop (offset + min n WIM_CHUNK_SIZE)
            = (l.udata.drop offset).drop (min n WIM_CHUNK_SIZE) := by
          rw [List.drop_drop]
        by_cases hcs : WIM_CHUNK_SIZE ≤ n
        · have hmin : min n WIM_CHUNK_SIZE = WIM_CHUNK_SIZE := by omega
          rw [h1, hmin]
        · have hmin : min n WIM_CHUNK_SIZE = n := by omega
          have hdlen : (l.udata.drop offset).length = n := by
            simp only [List.length_drop]; omega
          have ht1 : (l.udata.drop offset).take (min n WIM_CHUNK_SIZE)
              = l.udata.drop offset := by
            apply List.take_of_length_le
            omega
          have ht2 : (l.udata.drop offset).take WIM_CHUNK_SIZE
              = l.udata.drop offset := by
            apply List.take_of_length_le
            omega
          have hd1 : (l.udata.drop offset).drop (min n WIM_CHUNK_SIZE) = [] := by
            apply List.drop_eq_nil_of_le
            omega
          have hd2 : (l.udata.drop offset).drop WIM_CHUNK_SIZE = [] := by
            apply List.drop_eq_nil_of_le
            omega
          rw [h1, ht1, ht2, hd1, hd2]
      have harith : ct.cur_offset + (chosen_out compress
            ((l.udata.drop offset).take (min n WIM_CHUNK_SIZE))).length
          + sum_encoded compress (l.udata.drop (offset + min n WIM_CHUNK_SIZE))
          = ct.cur_offset + sum_encoded compress (l.udata.drop offset) := by
        omega
      rw [List.append_assoc, hjoin] at heq
      rw [← harith]
      exact heq
theorem num_chunks_le (s : Nat) (hsz : s < 2 ^ 60) :
    (s + WIM_CHUNK_SIZE - 1) / WIM_CHUNK_SIZE ≤ 2 ^ 45 := by
  have h1 : (s + WIM_CHUNK_SIZE - 1) / WIM_CHUNK_SIZE
      ≤ (2 ^ 60 + WIM_CHUNK_SIZE - 1) / WIM_CHUNK_SIZE :=
    Nat.div_le_div_right (by omega)
  have h2 : (2 ^ 60 + WIM_CHUNK_SIZE - 1) / WIM_CHUNK_SIZE = 2 ^ 45 := by
    norm_num [WIM_CHUNK_SIZE]
  omega

theorem num_chunks_pos (s : Nat) (hs : 0 < s) :
    1 ≤ (s + WIM_CHUNK_SIZE - 1) / WIM_CHUNK_SIZE := by
  rw [Nat.le_div_iff_mul_le (by norm_num [WIM_CHUNK_SIZE])]
  simp only [WIM_CHUNK_SIZE]
  omega

theorem nc_minus_one_mod (s : Nat) (hs : 0 < s) (hsz : s < 2 ^ 60) :
    ((s + WIM_CHUNK_SIZE - 1) / WIM_CHUNK_SIZE + (U64_MOD - 1)) % U64_MOD
      = (s + WIM_CHUNK_SIZE - 1) / WIM_CHUNK_SIZE - 1 := by
  have hnc1 := num_chunks_pos s hs
  have hncle := num_chunks_le s hsz
  have h1 : (s + WIM_CHUNK_SIZE - 1) / WIM_CHUNK_SIZE + (U64_MOD - 1)
      = ((s + WIM_CHUNK_SIZE - 1) / WIM_CHUNK_SIZE - 1) + U64_MOD := by
    have : 0 < U64_MOD := by simp only [U64_MOD]; omega
    omega
  rw [h1, Nat.add_mod_right]
  apply Nat.mod_eq_of_lt
  have hp : (2 : Nat) ^ 45 < 2 ^ 64 := by norm_num
  simp only [U64_MOD]
  omega

theorem tds_mod (s : Nat) (hs : 0 < s) (hsz : s < 2 ^ 60) (b : Nat)
    (hb : b ≤ 8) :
    (b * ((s + WIM_CHUNK_SIZE - 1) / WIM_CHUNK_SIZE - 1)) % U64_MOD
      = b * ((s + WIM_CHUNK_SIZE - 1) / WIM_CHUNK_SIZE - 1) := by
  have hncle := num_chunks_le s hsz
  apply Nat.mod_eq_of_lt
  have h : b * ((s + WIM_CHUNK_SIZE - 1) / WIM_CHUNK_SIZE - 1) ≤ 8 * 2 ^ 45 := by
    apply Nat.mul_le_mul hb
    omega
  have hp : (8 : Nat) * 2 ^ 45 < 2 ^ 64 := by norm_num
  simp only [U64_MOD]
  omega

theorem begin_chunk_tab_spec (l : LTE) (f : WFile) (fo : Nat)
    (hs : 0 < wim_resource_size l) (hsz : wim_resource_size l < 2 ^ 60) :
    begin_wim_resource_chunk_tab l f fo =
      ({ file_offset := fo,
         num_chunks := (wim_resource_size l + WIM_CHUNK_SIZE - 1)
           / WIM_CHUNK_SIZE,
         original_resource_size := wim_resource_size l,
         bytes_per_chunk_entry :=
           if wim_resource_size l ≥ 2 ^ 32 then 8 else 4,
         table_disk_size := (if wim_resource_size l ≥ 2 ^ 32 then 8 else 4)
           * ((wim_resource_size l + WIM_CHUNK_SIZE - 1) / WIM_CHUNK_SIZE - 1),
         cur_offset := 0, offsets := [] },
       f.writeB (List.replicate
         ((if wim_resource_size l ≥ 2 ^ 32 then 8 else 4)
           * ((wim_resource_size l + WIM_CHUNK_SIZE - 1) / WIM_CHUNK_SIZE - 1))
         0)) := by
  have hmod1 : (wim_resource_size l + WIM_CHUNK_SIZE - 1) % U64_MOD
      = wim_resource_size l + WIM_CHUNK_SIZE - 1 := by
    apply Nat.mod_eq_of_lt
    have hp : (2 : Nat) ^ 60 + WIM_CHUNK_SIZE < 2 ^ 64 := by
      norm_num [WIM_CHUNK_SIZE]
    simp only [U64_MOD, WIM_CHUNK_SIZE] at *
    omega
  have hmod2 := nc_minus_one_mod (wim_resource_size l) hs hsz
  unfold begin_wim_resource_chunk_tab
  simp only [hmod1, hmod2]
  by_cases hbig : wim_resource_size l ≥ 2 ^ 32
  · simp only [ge_iff_le, hbig, if_pos]
    rw [tds_mod (wim_resource_size l) hs hsz 8 (by norm_num)]
  · simp only [ge_iff_le, hbig, if_neg, if_false]
    rw [tds_mod (wim_resource_size l) hs hsz 4 (by norm_num)]
theorem write_wim_resource_none_spec (e : Ext) (l : LTE) (f : WFile)
    (entry0 : ResourceEntry) (ep : Bool)
    (hs : 0 < wim_resource_size l)
    (hlen : l.udata.length = wim_resource_size l)
    (hh : l.hash = e.sha1 l.udata) :
    ∃ f', write_wim_resource e l f CTYPE_NONE entry0 ep {} =
      .ok (f',
        (if ep then
          { offset := f.pos, size := wim_resource_size l,
            original_size := wim_resource_size l,
            flags := l.resource_entry.flags &&& 0xFB }
         else entry0), l) := by
  obtain ⟨f', hloop⟩ := write_chunks_loop_none (get_compress_func e CTYPE_NONE)
    l (wim_resource_size l) 0 [] f (by omega)
  refine ⟨f', ?_⟩
  rw [write_wim_resource]
  have hraw : resource_is_raw l CTYPE_NONE {} = false := by
    simp [resource_is_raw]
  simp only [CTYPE_NONE] at hraw hloop
  simp only [CTYPE_NONE, hraw, Bool.false_eq_true, if_false, ite_false,
    ite_true]
  rw [if_neg (show ¬(wim_resource_size l = 0) from by omega)]
  simp only [ne_eq, not_true_eq_false, false_and, if_false, ite_false]
  simp only [hloop, List.nil_append, List.drop_zero]
  rw [← hh]
  by_cases hz : is_zero_hash l.hash
  · rw [if_pos hz]
    dsimp only
    rw [dif_neg (show ¬(True ∧ wim_resource_size l ≥ wim_resource_size l
      ∧ False) from by simp)]
  · rw [if_neg hz]
    rw [if_neg (show ¬(l.hash ≠ l.hash) from by simp)]
    dsimp only
    rw [dif_neg (show ¬(True ∧ wim_resource_size l ≥ wim_resource_size l
      ∧ False) from by simp)]
theorem write_uncompressed_and_truncate_spec (e : Ext) (l : LTE) (f : WFile)
    (fo : Nat) (entry0 : ResourceEntry) (ep : Bool)
    (hs : 0 < wim_resource_size l)
    (hlen : l.udata.length = wim_resource_size l)
    (hh : l.hash = e.sha1 l.udata) :
    ∃ f', write_uncompressed_resource_and_truncate e l f fo entry0 ep =
      .ok (f',
        (if ep then
          { offset := fo, size := wim_resource_size l,
            original_size := wim_resource_size l,
            flags := l.resource_entry.flags &&& 0xFB }
         else entry0), l)
      ∧ f'.bytes.length = fo + wim_resource_size l := by
  obtain ⟨f2, hw⟩ := write_wim_resource_none_spec e l (f.seekTo fo) entry0 ep
    hs hlen hh
  rw [write_uncompressed_resource_and_truncate]
  rw [hw]
  refine ⟨fflush_and_ftruncate f2 (fo + wim_resource_size l), rfl, ?_⟩
  exact WFile.trunc_length f2 (fo + wim_resource_size l)
theorem write_wim_resource_compress_spec (e : Ext) (l : LTE) (f : WFile)
    (out_ctype : Nat) (entry0 : ResourceEntry) (ep : Bool) (fl : ResFlags)
    (hct : out_ctype ≠ CTYPE_NONE)
    (hraw : resource_is_raw l out_ctype fl = false)
    (hs : 0 < wim_resource_size l)
    (hsz : wim_resource_size l < 2 ^ 60)
    (hlen : l.udata.length = wim_resource_size l)
    (hc : ∀ x o, get_compress_func e out_ctype x = some o →
      o.length < x.length)
    (hh : l.hash = List.replicate SHA1_HASH_SIZE 0
      ∨ l.hash = e.sha1 l.udata) :
    ∃ f',
      write_wim_resource e l f out_ctype entry0 ep fl =
        (if encoded_body_size (get_compress_func e out_ctype)
            (wim_resource_size l) l.udata < wim_resource_size l then
          .ok (f',
            (if ep then
              { offset := f.pos,
                size := encoded_body_size (get_compress_func e out_ctype)
                  (wim_resource_size l) l.udata,
                original_size := wim_resource_size l,
                flags := (l.resource_entry.flags &&& 0xFB)
                  ||| WIM_RESHDR_FLAG_COMPRESSED }
             else entry0), { l with hash := e.sha1 l.udata })
         else
          .ok (f',
            (if ep then
              { offset := f.pos, size := wim_resource_size l,
                original_size := wim_resource_size l,
                flags := l.resource_entry.flags &&& 0xFB }
             else entry0), { l with hash := e.sha1 l.udata }))
      ∧ (¬ encoded_body_size (get_compress_func e out_ctype)
            (wim_resource_size l) l.udata < wim_resource_size l →
          f'.bytes.length = f.pos + wim_resource_size l) := by
  have hbegin := begin_chunk_tab_spec l f f.pos hs hsz
  obtain ⟨f2, off', hloop⟩ := write_chunks_loop_some
    (get_compress_func e out_ctype) l hc (wim_resource_size l) 0 []
    (f.writeB (List.replicate
      ((if wim_resource_size l ≥ 2 ^ 32 then 8 else 4)
        * ((wim_resource_size l + WIM_CHUNK_SIZE - 1) / WIM_CHUNK_SIZE - 1))
      0))
    { file_offset := f.pos,
      num_chunks := (wim_resource_size l + WIM_CHUNK_SIZE - 1)
        / WIM_CHUNK_SIZE,
      original_resource_size := wim_resource_size l,
      bytes_per_chunk_entry :=
        if wim_resource_size l ≥ 2 ^ 32 then 8 else 4,
      table_disk_size := (if wim_resource_size l ≥ 2 ^ 32 then 8 else 4)
        * ((wim_resource_size l + WIM_CHUNK_SIZE - 1) / WIM_CHUNK_SIZE - 1),
      cur_offset := 0, offsets := [] }
    (by omega)
    (by
      have : (2 : Nat) ^ 60 < 2 ^ 64 := by norm_num
      simp only [U64_MOD]
      omega)
  rw [write_wim_resource]
  simp only [CTYPE_NONE] at hct
  simp only [hraw, CTYPE_NONE, Bool.false_eq_true, if_false, ite_false,
    ne_eq]
  rw [if_neg (show ¬(wim_resource_size l = 0) from by omega)]
  rw [if_pos (show ¬out_ctype = 0 ∧ True from ⟨hct, trivial⟩)]
  simp only [CTYPE_NONE] at hbegin
  rw [hbegin]
  dsimp only
  simp only [hloop, List.nil_append, List.drop_zero, Nat.zero_add]
  rw [if_neg (show ¬(out_ctype = 0) from hct)]
  have hsum_le : sum_encoded (get_compress_func e out_ctype) l.udata
      ≤ wim_resource_size l := by
    have := sum_encoded_le (get_compress_func e out_ctype) l.udata hc
    omega
  have hncle := num_chunks_le (wim_resource_size l) hsz
  have hfin2 : (finish_wim_resource_chunk_tab
      { file_offset := f.pos,
        num_chunks := (wim_resource_size l + WIM_CHUNK_SIZE - 1)
          / WIM_CHUNK_SIZE,
        original_resource_size := wim_resource_size l,
        bytes_per_chunk_entry :=
          if wim_resource_size l ≥ 2 ^ 32 then 8 else 4,
        table_disk_size := (if wim_resource_size l ≥ 2 ^ 32 then 8 else 4)
          * ((wim_resource_size l + WIM_CHUNK_SIZE - 1) / WIM_CHUNK_SIZE - 1),
        cur_offset := sum_encoded (get_compress_func e out_ctype) l.udata,
        offsets := off' } f2).2
      = encoded_body_size (get_compress_func e out_ctype)
          (wim_resource_size l) l.udata := by
    simp only [finish_wim_resource_chunk_tab, encoded_body_size]
    rw [Nat.mod_eq_of_lt]
    · omega
    · have hb : (if wim_resource_size l ≥ 2 ^ 32 then 8 else 4)
          * ((wim_resource_size l + WIM_CHUNK_SIZE - 1) / WIM_CHUNK_SIZE - 1)
          ≤ 8 * 2 ^ 45 := by
        apply Nat.mul_le_mul
        · split <;> omega
        · omega
      have hp1 : (2 : Nat) ^ 60 + 8 * 2 ^ 45 < 2 ^ 64 := by norm_num
      simp only [U64_MOD]
      omega
  rw [hfin2]
  dsimp only
  have hhash : (if is_zero_hash l.hash then
        Except.ok (ε := WimErr) { l with hash := e.sha1 l.udata }
      else if ¬e.sha1 l.udata = l.hash then
        Except.error WimErr.invalid_resource_hash
      else Except.ok l)
      = Except.ok { l with hash := e.sha1 l.udata } := by
    cases hh with
    | inl hz => rw [if_pos (show is_zero_hash l.hash from hz)]
    | inr heq =>
        by_cases hz : is_zero_hash l.hash
        · rw [if_pos hz]
        · rw [if_neg hz, if_neg (show ¬¬e.sha1 l.udata = l.hash from by
            simp [heq])]
          rw [← heq]
  simp only [hhash]
  by_cases hlt : encoded_body_size (get_compress_func e out_ctype)
      (wim_resource_size l) l.udata < wim_resource_size l
  · refine ⟨(finish_wim_resource_chunk_tab
      { file_offset := f.pos,
        num_chunks := (wim_resource_size l + WIM_CHUNK_SIZE - 1)
          / WIM_CHUNK_SIZE,
        original_resource_size := wim_resource_size l,
        bytes_per_chunk_entry :=
          if wim_resource_size l ≥ 2 ^ 32 then 8 else 4,
        table_disk_size := (if wim_resource_size l ≥ 2 ^ 32 then 8 else 4)
          * ((wim_resource_size l + WIM_CHUNK_SIZE - 1) / WIM_CHUNK_SIZE - 1),
        cur_offset := sum_encoded (get_compress_func e out_ctype) l.udata,
        offsets := off' } f2).1, ?_, ?_⟩
    · rw [dif_neg (show ¬(True ∧ encoded_body_size
          (get_compress_func e out_ctype) (wim_resource_size l) l.udata
          ≥ wim_resource_size l ∧ ¬out_ctype = 0) from by
        intro hcon
        omega)]
      rw [if_pos hlt]
      rw [if_pos (show ¬out_ctype = 0 from hct)]
    · intro hcon
      exact absurd hlt hcon
  · have hge : encoded_body_size (get_compress_func e out_ctype)
        (wim_resource_size l) l.udata ≥ wim_resource_size l := by omega
    obtain ⟨f4, hwurat, hlen4⟩ := write_uncompressed_and_truncate_spec e
      { l with hash := e.sha1 l.udata }
      (finish_wim_resource_chunk_tab
        { file_offset := f.pos,
          num_chunks := (wim_resource_size l + WIM_CHUNK_SIZE - 1)
            / WIM_CHUNK_SIZE,
          original_resource_size := wim_resource_size l,
          bytes_per_chunk_entry :=
            if wim_resource_size l ≥ 2 ^ 32 then 8 else 4,
          table_disk_size := (if wim_resource_size l ≥ 2 ^ 32 then 8 else 4)
            * ((wim_resource_size l + WIM_CHUNK_SIZE - 1) / WIM_CHUNK_SIZE
              - 1),
          cur_offset := sum_encoded (get_compress_func e out_ctype) l.udata,
          offsets := off' } f2).1
      f.pos entry0 ep hs hlen rfl
    refine ⟨f4, ?_, ?_⟩
    · rw [dif_pos ⟨trivial, hge, hct⟩]
      rw [hwurat]
      rw [if_neg hlt]
      rfl
    · intro _
      exact hlen4
theorem main_writer_finish_stream_spec (e : Ext) (l : LTE) (ct : ChunkTable)
    (f : WFile)
    (hs : 0 < wim_resource_size l)
    (hlen : l.udata.length = wim_resource_size l)
    (hh : l.hash = e.sha1 l.udata)
    (hbound : ct.cur_offset + ct.table_disk_size < U64_MOD) :
    ∃ f', main_writer_finish_stream e l ct f =
      (if ct.cur_offset + ct.table_disk_size < wim_resource_size l then
        .ok (f', { l with output_resource_entry :=
          { offset := ct.file_offset,
            size := ct.cur_offset + ct.table_disk_size,
            original_size := l.resource_entry.original_size,
            flags := l.resource_entry.flags ||| WIM_RESHDR_FLAG_COMPRESSED } })
       else
        .ok (f', { l with output_resource_entry :=
          { offset := ct.file_offset,
            size := wim_resource_size l,
            original_size := wim_resource_size l,
            flags := l.resource_entry.flags &&& 0xFB } }))
      ∧ (¬ ct.cur_offset + ct.table_disk_size < wim_resource_size l →
          f'.bytes.length = ct.file_offset + wim_resource_size l) := by
  unfold main_writer_finish_stream
  have hmod : (finish_wim_resource_chunk_tab ct f).2
      = ct.cur_offset + ct.table_disk_size := by
    simp only [finish_wim_resource_chunk_tab]
    exact Nat.mod_eq_of_lt hbound
  simp only [hmod]
  by_cases hlt : ct.cur_offset + ct.table_disk_size < wim_resource_size l
  · refine ⟨(finish_wim_resource_chunk_tab ct f).1, ?_, ?_⟩
    · rw [if_neg (show ¬ ct.cur_offset + ct.table_disk_size
          ≥ wim_resource_size l from by omega)]
      rw [if_pos hlt]
    · intro hcon
      exact absurd hlt hcon
  · obtain ⟨f4, hwurat, hlen4⟩ := write_uncompressed_and_truncate_spec e l
      (finish_wim_resource_chunk_tab ct f).1 ct.file_offset
      l.output_resource_entry true hs hlen hh
    refine ⟨f4, ?_, ?_⟩
    · rw [if_pos (show ct.cur_offset + ct.table_disk_size
          ≥ wim_resource_size l from by omega)]
      rw [hwurat]
      rw [if_neg hlt]
      rfl
    · intro _
      exact hlen4
theorem WFile.writeB_at_end (f : WFile) (w : List Nat)
    (hpos : f.pos = f.bytes.length) :
    (f.writeB w).bytes = f.bytes ++ w := by
  simp only [WFile.writeB, hpos]
  rw [List.take_length, Nat.sub_self]
  rw [List.drop_eq_nil_of_le (by omega)]
  simp

/-- C8: for a resource of size `s > 0` (in the u64-overflow-free regime),
`begin_wim_resource_chunk_tab` computes `num_chunks = ceil(s / 32768)`
(characterized by `(nc-1)*CS < s ≤ nc*CS`), an 8-byte entry width iff
`s ≥ 2^32` (else 4), `table_disk_size = bytes_per_chunk_entry *
(num_chunks - 1)`, and writes exactly `table_disk_size` placeholder bytes
at the current file position (zero bytes when `num_chunks = 1`). -/
theorem claim_C8 (l : LTE) (f : WFile) (fo : Nat)
    (hs : 0 < wim_resource_size l) (hsz : wim_resource_size l < 2 ^ 60)
    (hpos : f.pos = f.bytes.length) :
    wim_resource_size l
        ≤ (begin_wim_resource_chunk_tab l f fo).1.num_chunks * WIM_CHUNK_SIZE
    ∧ ((begin_wim_resource_chunk_tab l f fo).1.num_chunks - 1)
        * WIM_CHUNK_SIZE < wim_resource_size l
    ∧ (wim_resource_size l ≥ 2 ^ 32 →
        (begin_wim_resource_chunk_tab l f fo).1.bytes_per_chunk_entry = 8)
    ∧ (wim_resource_size l < 2 ^ 32 →
        (begin_wim_resource_chunk_tab l f fo).1.bytes_per_chunk_entry = 4)
    ∧ (begin_wim_resource_chunk_tab l f fo).1.table_disk_size
        = (begin_wim_resource_chunk_tab l f fo).1.bytes_per_chunk_entry
          * ((begin_wim_resource_chunk_tab l f fo).1.num_chunks - 1)
    ∧ (begin_wim_resource_chunk_tab l f fo).2.bytes
        = f.bytes ++ List.replicate
            (begin_wim_resource_chunk_tab l f fo).1.table_disk_size 0
    ∧ ((begin_wim_resource_chunk_tab l f fo).1.num_chunks = 1 →
        (begin_wim_resource_chunk_tab l f fo).1.table_disk_size = 0) := by
  rw [begin_chunk_tab_spec l f fo hs hsz]
  dsimp only
  have hdm := Nat.div_add_mod (wim_resource_size l + WIM_CHUNK_SIZE - 1)
    WIM_CHUNK_SIZE
  have hmlt : (wim_resource_size l + WIM_CHUNK_SIZE - 1) % WIM_CHUNK_SIZE
      < WIM_CHUNK_SIZE := Nat.mod_lt _ (by norm_num [WIM_CHUNK_SIZE])
  refine ⟨?_, ?_, ?_, ?_, rfl, ?_, ?_⟩
  · simp only [WIM_CHUNK_SIZE] at *
    omega
  · simp only [WIM_CHUNK_SIZE] at *
    omega
  · intro hge
    rw [if_pos hge]
  · intro hlt2
    rw [if_neg (by omega)]
  · exact WFile.writeB_at_end f _ hpos
  · intro h1
    rw [h1]
    simp
theorem drop_append_exact (A B : List Nat) (n : Nat) (h : A.length = n) :
    (A ++ B).drop n = B := by
  subst h
  exact List.drop_left A B

theorem take_append_exact (A B : List Nat) (n : Nat) (h : A.length = n) :
    (A ++ B).take n = A := by
  subst h
  exact List.take_left A B

theorem leBytes_length (w n : Nat) : (leBytes w n).length = w := by
  induction w generalizing n with
  | zero => rfl
  | succ w ih => simp [leBytes, ih]

theorem flatMap_leBytes_length (w : Nat) (xs : List Nat) :
    (xs.flatMap (leBytes w)).length = xs.length * w := by
  induction xs with
  | nil => simp
  | cons a as ih =>
      simp only [List.flatMap_cons, List.length_append, leBytes_length, ih,
        List.length_cons]
      ring

/-- C9: after all `num_chunks` chunks have been recorded,
`finish_wim_resource_chunk_tab` writes, at the table's reserved offset,
exactly the little-endian serializations of `offsets[1..]` (skipping
`offsets[0]`), `bytes_per_chunk_entry` bytes each and `num_chunks - 1`
entries in all; it leaves the position at the end of the file and returns
`cur_offset + table_disk_size` as the encoded body size. -/
theorem claim_C9 (ct : ChunkTable) (f : WFile)
    (hoff : ct.offsets.length = ct.num_chunks)
    (h1 : 1 ≤ ct.num_chunks)
    (htds : ct.table_disk_size
      = ct.bytes_per_chunk_entry * (ct.num_chunks - 1))
    (hfit : ct.file_offset + ct.table_disk_size ≤ f.bytes.length)
    (hbound : ct.cur_offset + ct.table_disk_size < U64_MOD) :
    (((finish_wim_resource_chunk_tab ct f).1.bytes.drop
        ct.file_offset).take ct.table_disk_size
      = (ct.offsets.drop 1).flatMap (leBytes ct.bytes_per_chunk_entry))
    ∧ (ct.offsets.drop 1).length = ct.num_chunks - 1
    ∧ (finish_wim_resource_chunk_tab ct f).2
        = ct.cur_offset + ct.table_disk_size
    ∧ (finish_wim_resource_chunk_tab ct f).1.pos
        = (finish_wim_resource_chunk_tab ct f).1.bytes.length := by
  have hdlen : (ct.offsets.drop 1).length = ct.num_chunks - 1 := by
    simp only [List.length_drop, hoff]
  have hflen : ((ct.offsets.drop 1).flatMap
      (leBytes ct.bytes_per_chunk_entry)).length = ct.table_disk_size := by
    rw [flatMap_leBytes_length, hdlen, htds]
    ring
  have hser : (((ct.offsets.drop 1).flatMap (leBytes ct.bytes_per_chunk_entry)
      ++ List.replicate ct.table_disk_size 0).take ct.table_disk_size)
      = (ct.offsets.drop 1).flatMap (leBytes ct.bytes_per_chunk_entry) := by
    rw [← hflen, List.take_left]
  refine ⟨?_, hdlen, ?_, ?_⟩
  · simp only [finish_wim_resource_chunk_tab, WFile.seekEnd, WFile.writeB,
      WFile.seekTo, hser]
    have htk : (f.bytes.take ct.file_offset).length = ct.file_offset := by
      simp only [List.length_take]
      omega
    have hrep : ct.file_offset - f.bytes.length = 0 := by omega
    rw [hrep]
    simp only [List.replicate_zero, List.nil_append, List.append_nil]
    rw [List.append_assoc]
    rw [drop_append_exact _ _ _ htk]
    rw [take_append_exact _ _ _ hflen]
  · simp only [finish_wim_resource_chunk_tab]
    exact Nat.mod_eq_of_lt hbound
  · simp only [finish_wim_resource_chunk_tab, WFile.seekEnd]
/-- C1 counterexample: a stream with the all-zero declared hash whose
computed digest is nonzero.  The parallel pipeline's I/O-thread check
(write.c:934) raises `WIMLIB_ERR_INVALID_RESOURCE_HASH` instead of
adopting the computed digest, because `main_writer_thread_proc` has no
`is_zero_hash` branch. -/
theorem claim_C1_counterexample :
    is_zero_hash zeroHashStream.hash
    ∧ main_writer_check_stream_hash sampleExt zeroHashStream
        zeroHashStream.udata = .error .invalid_resource_hash := by
  constructor
  · decide
  · rfl

/-- C1 (amended): in the parallel pipeline, after a stream's last chunk is
read the I/O thread compares the accumulated SHA-1 with the declared hash
and raises `HashMismatch` exactly when they differ -- including when the
declared hash is all-zero; the computed digest is never adopted in this
path. -/
theorem claim_C1 (e : Ext) (l : LTE) (acc : List Nat) :
    (main_writer_check_stream_hash e l acc = .ok (e.sha1 acc)
      ↔ l.hash = e.sha1 acc)
    ∧ (main_writer_check_stream_hash e l acc
        = .error .invalid_resource_hash ↔ l.hash ≠ e.sha1 acc) := by
  unfold main_writer_check_stream_hash
  by_cases h : l.hash = e.sha1 acc
  · rw [if_pos h]
    simp [h]
  · rw [if_neg h]
    simp [h]

/-- C4 counterexample: for a size-0 stream, `write_wim_resource` returns
success without touching `*out_res_entry`: the previous garbage entry
`{7,7,7,7}` survives, instead of the zeroed entry
`{offset: current offset, 0, 0, 0}` the claim demands. -/
theorem claim_C4_counterexample :
    wim_resource_size emptyStream = 0
    ∧ write_wim_resource sampleExt emptyStream sampleFile CTYPE_NONE
        sampleEntry true {} = .ok (sampleFile, sampleEntry, emptyStream)
    ∧ sampleEntry ≠
        ({ offset := sampleFile.pos, size := 0, original_size := 0,
           flags := 0 } : ResourceEntry) := by
  refine ⟨rfl, ?_, by decide⟩
  rw [write_wim_resource]
  simp [resource_is_raw, emptyStream, sampleStream, wim_resource_size,
    CTYPE_NONE]

/-- C4 (amended): whenever the number of bytes to copy is 0 (the original
size, or the existing compressed size for a raw copy),
`write_wim_resource` returns success immediately, writing nothing and
leaving the given resource entry and stream unmodified (not zeroing the
entry). -/
theorem claim_C4 (e : Ext) (l : LTE) (f : WFile) (out_ctype : Nat)
    (entry0 : ResourceEntry) (ep : Bool) (fl : ResFlags)
    (h : bytes_to_copy l out_ctype fl = 0) :
    write_wim_resource e l f out_ctype entry0 ep fl = .ok (f, entry0, l) := by
  rw [write_wim_resource]
  unfold bytes_to_copy at h
  rw [if_pos h]

/-- C4 witness: the amended claim at the concrete empty stream. -/
theorem claim_C4_witness :
    bytes_to_copy emptyStream CTYPE_NONE {} = 0
    ∧ write_wim_resource sampleExt emptyStream sampleFile CTYPE_NONE
        sampleEntry true {} = .ok (sampleFile, sampleEntry, emptyStream) :=
  ⟨by decide,
   claim_C4 sampleExt emptyStream sampleFile CTYPE_NONE sampleEntry true {}
     (by decide)⟩
/-- C5 counterexample: a 5-byte stream whose encoded body size equals its
original size (single chunk, compressor reports "not smaller", empty chunk
table).  The serial path does NOT keep it compressed: write.c:558 tests
`new_compressed_size >= original_size` (not `>`), so the resource is
rewritten uncompressed with the `COMPRESSED` flag cleared -- the same
decision the parallel path makes. -/
theorem claim_C5_counterexample :
    encoded_body_size (get_compress_func sampleExt CTYPE_LZX)
        (wim_resource_size sampleStream) sampleStream.udata
      = wim_resource_size sampleStream
    ∧ write_wim_resource sampleExt sampleStream sampleFile CTYPE_LZX
        sampleEntry true {}
      = .ok (⟨List.replicate 10 9 ++ [1, 2, 3, 4, 5], 15⟩,
          { offset := 10, size := 5, original_size := 5, flags := 0 },
          sampleStream)
    ∧ (5 : Nat) &&& WIM_RESHDR_FLAG_COMPRESSED ≠ 0 ∧ (0 : Nat) &&&
        WIM_RESHDR_FLAG_COMPRESSED = 0 := by
  refine ⟨?_, ?_, by decide, by decide⟩
  · have hch : chunksOf ([1, 2, 3, 4, 5] : List Nat) = [[1, 2, 3, 4, 5]] := by
      rw [chunksOf_ne_nil _ (by decide)]
      rw [chunksOf]
      decide
    simp [encoded_body_size, sum_encoded, hch, chosen_out, get_compress_func,
      sampleExt, sampleStream, wim_resource_size, CTYPE_LZX, WIM_CHUNK_SIZE]
  · simp [write_wim_resource, write_chunks_loop, wim_resource_size,
      wim_resource_compressed_size, sampleStream, sampleFile, CTYPE_NONE,
      CTYPE_LZX, sampleExt, resource_is_raw, get_compress_func,
      read_wim_resource, write_wim_resource_chunk, chosen_out,
      begin_wim_resource_chunk_tab, chunk_tab_record,
      finish_wim_resource_chunk_tab, WFile.writeB, WFile.seekTo,
      WFile.seekEnd, WFile.trunc, fflush_and_ftruncate, is_zero_hash,
      write_uncompressed_resource_and_truncate, WIM_CHUNK_SIZE, U64_MOD,
      SHA1_HASH_SIZE, leBytes]
/-- C5 (amended): both the serial path (write.c:558, `>=`) and the
parallel path (write.c:1124, `>=`) apply the fallback-to-uncompressed
under the same condition, encoded size greater than or equal to original
size; in particular, for an input whose encoded body size equals its
original size, both paths rewrite the resource uncompressed and produce
an entry with the `COMPRESSED` flag cleared -- the two paths agree. -/
theorem claim_C5 :
    (∀ (e : Ext) (l : LTE) (f : WFile) (out_ctype : Nat)
        (entry0 : ResourceEntry) (fl : ResFlags),
      out_ctype ≠ CTYPE_NONE →
      resource_is_raw l out_ctype fl = false →
      0 < wim_resource_size l →
      wim_resource_size l < 2 ^ 60 →
      l.udata.length = wim_resource_size l →
      (∀ x o, get_compress_func e out_ctype x = some o →
        o.length < x.length) →
      (l.hash = List.replicate SHA1_HASH_SIZE 0
        ∨ l.hash = e.sha1 l.udata) →
      encoded_body_size (get_compress_func e out_ctype)
        (wim_resource_size l) l.udata = wim_resource_size l →
      ∃ f' en l', write_wim_resource e l f out_ctype entry0 true fl
          = .ok (f', en, l')
        ∧ en.flags &&& WIM_RESHDR_FLAG_COMPRESSED = 0
        ∧ en.size = wim_resource_size l
        ∧ f'.bytes.length = f.pos + wim_resource_size l)
    ∧ (∀ (e : Ext) (l : LTE) (ct : ChunkTable) (f : WFile),
      0 < wim_resource_size l →
      l.udata.length = wim_resource_size l →
      l.hash = e.sha1 l.udata →
      ct.cur_offset + ct.table_disk_size < U64_MOD →
      ct.cur_offset + ct.table_disk_size = wim_resource_size l →
      ∃ f' l', main_writer_finish_stream e l ct f = .ok (f', l')
        ∧ l'.output_resource_entry.flags &&& WIM_RESHDR_FLAG_COMPRESSED = 0
        ∧ l'.output_resource_entry.size = wim_resource_size l
        ∧ f'.bytes.length = ct.file_offset + wim_resource_size l) := by
  constructor
  · intro e l f out_ctype entry0 fl hct hraw hs hsz hlen hc hh heq
    obtain ⟨f', hmain, hsnd⟩ := write_wim_resource_compress_spec e l f
      out_ctype entry0 true fl hct hraw hs hsz hlen hc hh
    have hnlt : ¬ encoded_body_size (get_compress_func e out_ctype)
        (wim_resource_size l) l.udata < wim_resource_size l := by omega
    rw [if_neg hnlt] at hmain
    refine ⟨f', _, _, hmain, ?_, rfl, hsnd hnlt⟩
    simp only [if_pos rfl, ite_true]
    exact flag_mask_and l.resource_entry.flags
  · intro e l ct f hs hlen hh hbound heq
    obtain ⟨f', hmain, hsnd⟩ := main_writer_finish_stream_spec e l ct f
      hs hlen hh hbound
    have hnlt : ¬ ct.cur_offset + ct.table_disk_size
        < wim_resource_size l := by omega
    rw [if_neg hnlt] at hmain
    refine ⟨f', _, hmain, ?_, rfl, hsnd hnlt⟩
    exact flag_mask_and l.resource_entry.flags
/-- C5 witness: both paths at a concrete encoded-equals-original input. -/
theorem claim_C5_witness :
    encoded_body_size (get_compress_func sampleExt CTYPE_LZX)
        (wim_resource_size sampleStream) sampleStream.udata
      = wim_resource_size sampleStream
    ∧ (∃ f' en l', write_wim_resource sampleExt sampleStream sampleFile
          CTYPE_LZX sampleEntry true {} = .ok (f', en, l')
        ∧ en.flags &&& WIM_RESHDR_FLAG_COMPRESSED = 0
        ∧ en.size = wim_resource_size sampleStream
        ∧ f'.bytes.length = sampleFile.pos + wim_resource_size sampleStream)
    ∧ sampleChunkTab.cur_offset + sampleChunkTab.table_disk_size
        = wim_resource_size sampleStream
    ∧ (∃ f' l', main_writer_finish_stream sampleExt sampleStream
          sampleChunkTab sampleFile = .ok (f', l')
        ∧ l'.output_resource_entry.flags &&& WIM_RESHDR_FLAG_COMPRESSED = 0
        ∧ l'.output_resource_entry.size = wim_resource_size sampleStream
        ∧ f'.bytes.length = sampleChunkTab.file_offset
            + wim_resource_size sampleStream) := by
  have henc : encoded_body_size (get_compress_func sampleExt CTYPE_LZX)
      (wim_resource_size sampleStream) sampleStream.udata
      = wim_resource_size sampleStream := by
    have hch : chunksOf ([1, 2, 3, 4, 5] : List Nat) = [[1, 2, 3, 4, 5]] := by
      rw [chunksOf_ne_nil _ (by decide)]
      rw [chunksOf]
      decide
    simp [encoded_body_size, sum_encoded, hch, chosen_out, get_compress_func,
      sampleExt, sampleStream, wim_resource_size, CTYPE_LZX, WIM_CHUNK_SIZE]
  refine ⟨henc,
    claim_C5.1 sampleExt sampleStream sampleFile CTYPE_LZX sampleEntry {}
      (by decide) (by decide) (by decide) (by decide) (by decide)
      (fun x o h => by simp [get_compress_func, sampleExt, CTYPE_LZX] at h)
      (Or.inr rfl) henc,
    by decide,
    claim_C5.2 sampleExt sampleStream sampleChunkTab sampleFile
      (by decide) (by decide) rfl (by decide) (by decide)⟩
/-- C2: in both the serial path (`write_wim_resource`) and the parallel
path (`main_writer_finish_stream`), a resource written with a compression
type other than NONE and not raw-copied is emitted compressed --
`COMPRESSED` flag set and offset/size/original_size taken from the
chunk-table result -- exactly when its encoded body size is strictly less
than its original size; otherwise the writer seeks back to the resource's
start, rewrites it uncompressed (entry size = original size) and truncates
the file to start offset plus original size, with `COMPRESSED` cleared. -/
theorem claim_C2 :
    (∀ (e : Ext) (l : LTE) (f : WFile) (out_ctype : Nat)
        (entry0 : ResourceEntry) (fl : ResFlags),
      out_ctype ≠ CTYPE_NONE →
      resource_is_raw l out_ctype fl = false →
      0 < wim_resource_size l →
      wim_resource_size l < 2 ^ 60 →
      l.udata.length = wim_resource_size l →
      (∀ x o, get_compress_func e out_ctype x = some o →
        o.length < x.length) →
      (l.hash = List.replicate SHA1_HASH_SIZE 0
        ∨ l.hash = e.sha1 l.udata) →
      ∃ f' en l', write_wim_resource e l f out_ctype entry0 true fl
          = .ok (f', en, l')
        ∧ (en.flags &&& WIM_RESHDR_FLAG_COMPRESSED ≠ 0
            ↔ encoded_body_size (get_compress_func e out_ctype)
                (wim_resource_size l) l.udata < wim_resource_size l)
        ∧ (encoded_body_size (get_compress_func e out_ctype)
              (wim_resource_size l) l.udata < wim_resource_size l →
            en = { offset := f.pos,
                   size := encoded_body_size (get_compress_func e out_ctype)
                     (wim_resource_size l) l.udata,
                   original_size := wim_resource_size l,
                   flags := (l.resource_entry.flags &&& 0xFB)
                     ||| WIM_RESHDR_FLAG_COMPRESSED })
        ∧ (¬ encoded_body_size (get_compress_func e out_ctype)
              (wim_resource_size l) l.udata < wim_resource_size l →
            en.offset = f.pos ∧ en.size = wim_resource_size l
            ∧ en.original_size = wim_resource_size l
            ∧ f'.bytes.length = f.pos + wim_resource_size l))
    ∧ (∀ (e : Ext) (l : LTE) (ct : ChunkTable) (f : WFile),
      0 < wim_resource_size l →
      l.udata.length = wim_resource_size l →
      l.hash = e.sha1 l.udata →
      ct.cur_offset + ct.table_disk_size < U64_MOD →
      ∃ f' l', main_writer_finish_stream e l ct f = .ok (f', l')
        ∧ (l'.output_resource_entry.flags &&& WIM_RESHDR_FLAG_COMPRESSED ≠ 0
            ↔ ct.cur_offset + ct.table_disk_size < wim_resource_size l)
        ∧ (ct.cur_offset + ct.table_disk_size < wim_resource_size l →
            l'.output_resource_entry =
              { offset := ct.file_offset,
                size := ct.cur_offset + ct.table_disk_size,
                original_size := l.resource_entry.original_size,
                flags := l.resource_entry.flags
                  ||| WIM_RESHDR_FLAG_COMPRESSED })
        ∧ (¬ ct.cur_offset + ct.table_disk_size < wim_resource_size l →
            l'.output_resource_entry.offset = ct.file_offset
            ∧ l'.output_resource_entry.size = wim_resource_size l
            ∧ l'.output_resource_entry.original_size = wim_resource_size l
            ∧ f'.bytes.length = ct.file_offset + wim_resource_size l)) := by
  constructor
  · intro e l f out_ctype entry0 fl hct hraw hs hsz hlen hc hh
    obtain ⟨f', hmain, hsnd⟩ := write_wim_resource_compress_spec e l f
      out_ctype entry0 true fl hct hraw hs hsz hlen hc hh
    by_cases hlt : encoded_body_size (get_compress_func e out_ctype)
        (wim_resource_size l) l.udata < wim_resource_size l
    · rw [if_pos hlt] at hmain
      simp only [ite_true, if_pos rfl] at hmain
      refine ⟨f', _, _, hmain, ?_, fun _ => rfl, fun hcon => absurd hlt hcon⟩
      constructor
      · intro _
        exact hlt
      · intro _
        rw [flag_or_and]
        simp [WIM_RESHDR_FLAG_COMPRESSED]
    · rw [if_neg hlt] at hmain
      simp only [ite_true, if_pos rfl] at hmain
      refine ⟨f', _, _, hmain, ?_, fun hcon => absurd hcon hlt,
        fun _ => ⟨rfl, rfl, rfl, hsnd hlt⟩⟩
      constructor
      · intro hflag
        exact absurd (flag_mask_and l.resource_entry.flags) hflag
      · intro hcon
        exact absurd hcon hlt
  · intro e l ct f hs hlen hh hbound
    obtain ⟨f', hmain, hsnd⟩ := main_writer_finish_stream_spec e l ct f
      hs hlen hh hbound
    by_cases hlt : ct.cur_offset + ct.table_disk_size < wim_resource_size l
    · rw [if_pos hlt] at hmain
      refine ⟨f', _, hmain, ?_, fun _ => rfl, fun hcon => absurd hlt hcon⟩
      constructor
      · intro _
        exact hlt
      · intro _
        rw [flag_or_and]
        simp [WIM_RESHDR_FLAG_COMPRESSED]
    · rw [if_neg hlt] at hmain
      refine ⟨f', _, hmain, ?_, fun hcon => absurd hcon hlt,
        fun _ => ⟨rfl, rfl, rfl, hsnd hlt⟩⟩
      constructor
      · intro hflag
        exact absurd (flag_mask_and l.resource_entry.flags) hflag
      · intro hcon
        exact absurd hcon hlt
/-- C2 witness: both paths at concrete inputs (incompressible 5-byte
stream, serial; drained one-chunk table, parallel). -/
theorem claim_C2_witness :
    CTYPE_LZX ≠ CTYPE_NONE
    ∧ resource_is_raw sampleStream CTYPE_LZX {} = false
    ∧ 0 < wim_resource_size sampleStream
    ∧ sampleStream.udata.length = wim_resource_size sampleStream
    ∧ (∃ f' en l', write_wim_resource sampleExt sampleStream sampleFile
          CTYPE_LZX sampleEntry true {} = .ok (f', en, l')
        ∧ (en.flags &&& WIM_RESHDR_FLAG_COMPRESSED ≠ 0
            ↔ encoded_body_size (get_compress_func sampleExt CTYPE_LZX)
                (wim_resource_size sampleStream) sampleStream.udata
                < wim_resource_size sampleStream))
    ∧ (∃ f' l', main_writer_finish_stream sampleExt sampleStream
          sampleChunkTab sampleFile = .ok (f', l')
        ∧ (l'.output_resource_entry.flags &&& WIM_RESHDR_FLAG_COMPRESSED ≠ 0
            ↔ sampleChunkTab.cur_offset + sampleChunkTab.table_disk_size
                < wim_resource_size sampleStream)) := by
  obtain ⟨f1, en1, l1, h1, hiff1, -, -⟩ :=
    claim_C2.1 sampleExt sampleStream sampleFile CTYPE_LZX sampleEntry {}
      (by decide) (by decide) (by decide) (by decide) (by decide)
      (fun x o h => by simp [get_compress_func, sampleExt, CTYPE_LZX] at h)
      (Or.inr rfl)
  obtain ⟨f2, l2, h2, hiff2, -, -⟩ :=
    claim_C2.2 sampleExt sampleStream sampleChunkTab sampleFile
      (by decide) (by decide) rfl (by decide)
  exact ⟨by decide, by decide, by decide, by decide,
    ⟨f1, en1, l1, h1, hiff1⟩, ⟨f2, l2, h2, hiff2⟩⟩
/-- C3 counterexample: when no deletion occurred and no image was modified,
`overwrite_wim_inplace` sets `WIMLIB_WRITE_FLAG_NO_LOOKUP_TABLE`, and the
truncate guard at write.c:1946 then skips the truncation: a `finish_write`
failure after the file was opened for appending returns the error with the
file NOT truncated back to `old_wim_end`. -/
theorem claim_C3_counterexample :
    failFinishEnv.open_ok = true
    ∧ failFinishEnv.finish_write_ret = some .write
    ∧ overwrite_wim_inplace noModWim {} failFinishEnv
        = { ret := some .write, truncated_to := none } := by
  refine ⟨rfl, rfl, ?_⟩
  decide

/-- C3 (amended): if `overwrite_wim_inplace` fails at the stream-write,
metadata-write, or `finish_write` step (the steps after the output file was
opened for appending), the archive is truncated back to `old_wim_end`
before returning -- provided the `NO_LOOKUP_TABLE` shortcut was not taken,
i.e. the caller passed the flag cleared and a deletion occurred or some
image was modified; on success nothing is truncated. -/
theorem claim_C3 (w : WIMStruct) (wf : WriteFlags) (env : InplaceEnv)
    (hord1 : ¬(w.hdr.integrity.offset ≠ 0
      ∧ w.hdr.integrity.offset < w.hdr.xml_res_entry.offset))
    (hord2 : ¬(w.hdr.lookup_table_res_entry.offset
      > w.hdr.xml_res_entry.offset))
    (hnlt : wf.no_lookup_table = false)
    (hmod : w.deletion_occurred = true ∨ any_images_modified w = true)
    (hfind : env.find_streams_ret = none)
    (hopen : env.open_ok = true)
    (hlock : (lock_wim true w.wim_locked env.flock_errno).1 = none)
    (hseek : env.seek_ok = true) :
    (overwrite_wim_inplace w wf env).ret = inplace_write_phase w env
    ∧ (inplace_write_phase w env ≠ none →
      (overwrite_wim_inplace w wf env).truncated_to
        = some (if w.hdr.integrity.offset ≠ 0 then
            w.hdr.integrity.offset + w.hdr.integrity.size
          else w.hdr.xml_res_entry.offset + w.hdr.xml_res_entry.size))
    ∧ (inplace_write_phase w env = none →
      (overwrite_wim_inplace w wf env).truncated_to = none) := by
  unfold overwrite_wim_inplace
  rw [if_neg hord1, if_neg hord2]
  have hnm : (!w.deletion_occurred && !any_images_modified w) = false := by
    rcases hmod with h | h <;> simp [h]
  rcases hlp : lock_wim true w.wim_locked env.flock_errno with ⟨r, b⟩
  rw [hlp] at hlock
  simp only at hlock
  subst hlock
  simp only [hnm, Bool.false_eq_true, if_false, ite_false, hfind, hopen,
    hseek, hlp, Bool.true_eq_false]
  refine ⟨by trivial, ?_, ?_⟩
  · intro hr
    rw [if_pos ⟨hr, hnlt⟩]
  · intro hr
    rw [if_neg (by simp [hr])]
/-- C3 witness: the amended claim at a WIM with a deletion and a failing
`finish_write`. -/
theorem claim_C3_witness :
    (sampleWim.deletion_occurred = true
      ∨ any_images_modified sampleWim = true)
    ∧ ((overwrite_wim_inplace sampleWim {} failFinishEnv).ret
        = inplace_write_phase sampleWim failFinishEnv
      ∧ (inplace_write_phase sampleWim failFinishEnv ≠ none →
        (overwrite_wim_inplace sampleWim {} failFinishEnv).truncated_to
          = some (if sampleWim.hdr.integrity.offset ≠ 0 then
              sampleWim.hdr.integrity.offset + sampleWim.hdr.integrity.size
            else sampleWim.hdr.xml_res_entry.offset
              + sampleWim.hdr.xml_res_entry.size))
      ∧ (inplace_write_phase sampleWim failFinishEnv = none →
        (overwrite_wim_inplace sampleWim {} failFinishEnv).truncated_to
          = none)) :=
  ⟨Or.inl rfl,
   claim_C3 sampleWim {} failFinishEnv (by decide) (by decide) rfl
     (Or.inl rfl) rfl rfl (by decide) rfl⟩
/-- C6: `wimlib_overwrite` defaults to the in-place strategy and falls
back to the temp-file rebuild exactly when the `REBUILD` flag is set, a
deletion occurred without `SOFT_DELETE`, or the in-place attempt failed
with `ResourceOrderError`; any other in-place error (`AlreadyLocked`
included) and in-place success are returned directly, without the
rebuild. -/
theorem claim_C6 (w : WIMStruct) (wf0 : WriteFlags) (env : OverwriteEnv)
    (hname : w.has_filename = true) (hparts : w.hdr.total_parts = 1) :
    ((wimlib_overwrite w wf0 env).tried_inplace = true
      ↔ ((w.deletion_occurred = false ∨ wf0.soft_delete = true)
          ∧ wf0.rebuild = false))
    ∧ ((wimlib_overwrite w wf0 env).tried_rebuild = true
      ↔ (wf0.rebuild = true
          ∨ (w.deletion_occurred = true ∧ wf0.soft_delete = false)
          ∨ (((w.deletion_occurred = false ∨ wf0.soft_delete = true)
              ∧ wf0.rebuild = false)
            ∧ env.inplace_ret = some .resource_order)))
    ∧ (∀ er : WimErr, env.inplace_ret = some er → er ≠ .resource_order →
        ((w.deletion_occurred = false ∨ wf0.soft_delete = true)
          ∧ wf0.rebuild = false) →
        wimlib_overwrite w wf0 env
          = { ret := some er, tried_inplace := true, tried_rebuild := false })
    ∧ (env.inplace_ret = none →
        ((w.deletion_occurred = false ∨ wf0.soft_delete = true)
          ∧ wf0.rebuild = false) →
        wimlib_overwrite w wf0 env
          = { ret := none, tried_inplace := true, tried_rebuild := false }) := by
  unfold wimlib_overwrite mask_public
  simp only [hname, hparts, Bool.true_eq_false, if_false, ite_false, ne_eq,
    not_true_eq_false]
  cases hd : w.deletion_occurred <;> cases hsd : wf0.soft_delete <;>
    cases hrb : wf0.rebuild <;>
    by_cases hro : env.inplace_ret = some WimErr.resource_order <;>
    simp [hro] <;>
    intro er her hner <;>
    exact her
/-- C6 witness: an in-place attempt failing with `AlreadyLocked` on a WIM
with no deletion is returned directly, with no rebuild attempted. -/
theorem claim_C6_witness :
    noModWim.has_filename = true
    ∧ noModWim.hdr.total_parts = 1
    ∧ wimlib_overwrite noModWim {}
        { inplace_ret := some .already_locked, tmpfile_ret := none }
      = { ret := some .already_locked, tried_inplace := true,
          tried_rebuild := false } :=
  ⟨rfl, rfl,
   (claim_C6 noModWim {}
      { inplace_ret := some .already_locked, tmpfile_ret := none }
      rfl rfl).2.2.1 .already_locked rfl (by decide) ⟨Or.inl rfl, rfl⟩⟩

theorem total_compression_bytes_eq (sl : List LTE) (out_ctype : Nat)
    (wf : WriteFlags) :
    total_compression_bytes sl out_ctype wf
      = ((sl.filter (fun l => decide (out_ctype ≠ CTYPE_NONE
          ∧ (l.resource_ctype ≠ out_ctype ∨ wf.recompress = true)))).map
            wim_resource_size).sum := by
  unfold total_compression_bytes
  suffices h : ∀ a : Nat, sl.foldl
      (fun acc l =>
        if out_ctype ≠ CTYPE_NONE ∧
            (l.resource_ctype ≠ out_ctype ∨ wf.recompress = true) then
          acc + wim_resource_size l
        else acc) a
      = a + ((sl.filter (fun l => decide (out_ctype ≠ CTYPE_NONE
          ∧ (l.resource_ctype ≠ out_ctype ∨ wf.recompress = true)))).map
            wim_resource_size).sum by
    rw [h 0, Nat.zero_add]
  induction sl with
  | nil => intro a; simp
  | cons x xs ih =>
      intro a
      by_cases hx : out_ctype ≠ CTYPE_NONE ∧
          (x.resource_ctype ≠ out_ctype ∨ wf.recompress = true)
      · rw [List.filter_cons, if_pos (decide_eq_true hx)]
        simp only [List.foldl_cons, if_pos hx, List.map_cons, List.sum_cons,
          ih]
        omega
      · rw [List.filter_cons, if_neg (by simp [hx])]
        simp only [List.foldl_cons, if_neg hx, ih]
/-- C7: `write_stream_list` dispatches to the parallel pipeline exactly
when the total size of the streams needing compression (`out_ctype` not
NONE, and a differing existing compression type or `RECOMPRESS`) is at
least 1,000,000 bytes and the requested thread count is not 1; the
parallel path falls back to the serial writer exactly when CPU detection,
an allocation, or thread creation fails, or when the main writer returns
`OutOfMemory` -- in particular, on `OutOfMemory` or thread-creation
failure the serial path always ends up running. -/
theorem claim_C7 :
    (∀ (sl : List LTE) (out_ctype : Nat) (wf : WriteFlags)
        (num_threads : Nat),
      write_stream_list_uses_parallel sl out_ctype wf num_threads = true
        ↔ (1000000 ≤ ((sl.filter (fun l => decide (out_ctype ≠ CTYPE_NONE
              ∧ (l.resource_ctype ≠ out_ctype ∨ wf.recompress = true)))).map
                wim_resource_size).sum
            ∧ num_threads ≠ 1))
    ∧ (∀ (num_threads : Nat) (env : ParallelEnv),
      write_stream_list_parallel num_threads env = .serial_fallback
        ↔ ((num_threads = 0 ∧ env.default_threads_ok = false)
            ∨ env.queue1_ok = false ∨ env.queue2_ok = false
            ∨ env.alloc_ok = false ∨ env.thread_create_fail = true
            ∨ env.main_ret = some .nomem))
    ∧ (∀ (sl : List LTE) (out_ctype : Nat) (wf : WriteFlags)
        (num_threads : Nat) (env : ParallelEnv),
      env.main_ret = some .nomem ∨ env.thread_create_fail = true →
      write_stream_list_runs_serial sl out_ctype wf num_threads env
        = true) := by
  have hpar : ∀ (num_threads : Nat) (env : ParallelEnv),
      write_stream_list_parallel num_threads env = .serial_fallback
        ↔ ((num_threads = 0 ∧ env.default_threads_ok = false)
            ∨ env.queue1_ok = false ∨ env.queue2_ok = false
            ∨ env.alloc_ok = false ∨ env.thread_create_fail = true
            ∨ env.main_ret = some .nomem) := by
    intro nt env
    unfold write_stream_list_parallel
    by_cases h1 : nt = 0 ∧ env.default_threads_ok = false
    · simp [h1]
    · rw [if_neg h1]
      by_cases h2 : env.queue1_ok = false
      · simp [h1, h2]
      · rw [if_neg h2]
        by_cases h3 : env.queue2_ok = false
        · simp [h1, h2, h3]
        · rw [if_neg h3]
          by_cases h4 : env.alloc_ok = false
          · simp [h1, h2, h3, h4]
          · rw [if_neg h4]
            by_cases h5 : env.thread_create_fail = true
            · simp [h1, h2, h3, h4, h5]
            · rw [if_neg h5]
              by_cases h6 : env.main_ret = some WimErr.nomem
              · simp [h1, h2, h3, h4, h5, h6]
              · rw [if_neg h6]
                simp [h1, h2, h3, h4, h5, h6]
  refine ⟨?_, hpar, ?_⟩
  · intro sl out_ctype wf nt
    unfold write_stream_list_uses_parallel
    rw [total_compression_bytes_eq]
    simp
  · intro sl out_ctype wf nt env hbad
    unfold write_stream_list_runs_serial
    by_cases hp : write_stream_list_uses_parallel sl out_ctype wf nt = true
    · rw [if_pos hp]
      have : write_stream_list_parallel nt env = .serial_fallback := by
        rw [hpar]
        rcases hbad with h | h
        · exact Or.inr (Or.inr (Or.inr (Or.inr (Or.inr h))))
        · exact Or.inr (Or.inr (Or.inr (Or.inr (Or.inl h))))
      rw [this]
      rfl
    · rw [if_neg hp]
/-- C7 witness: `OutOfMemory` from the main writer thread forces the
serial path at a concrete instance. -/
theorem claim_C7_witness :
    (nomemEnv.main_ret = some .nomem ∨ nomemEnv.thread_create_fail = true)
    ∧ write_stream_list_runs_serial [] CTYPE_LZX {} 4 nomemEnv = true :=
  ⟨Or.inl rfl, claim_C7.2.2 [] CTYPE_LZX {} 4 nomemEnv (Or.inl rfl)⟩

/-- C10: `lock_wim` returns `AlreadyLocked` exactly when the non-blocking
`flock` fails with `EWOULDBLOCK`; any other `flock` failure is downgraded
to a warning, returning success with the WIM left unlocked, and the
in-place overwrite then proceeds (to completion, when the later steps
succeed) without holding the advisory lock. -/
theorem claim_C10 :
    (∀ (fp locked : Bool) (fe : Option Nat),
      (lock_wim fp locked fe).1 = some .already_locked
        ↔ (fp = true ∧ locked = false ∧ fe = some EWOULDBLOCK))
    ∧ (∀ er : Nat, er ≠ EWOULDBLOCK →
        lock_wim true false (some er) = (none, false))
    ∧ (∀ (w : WIMStruct) (wf : WriteFlags) (er : Nat),
        er ≠ EWOULDBLOCK →
        ¬(w.hdr.integrity.offset ≠ 0
          ∧ w.hdr.integrity.offset < w.hdr.xml_res_entry.offset) →
        ¬(w.hdr.lookup_table_res_entry.offset
          > w.hdr.xml_res_entry.offset) →
        (overwrite_wim_inplace w wf
          { find_streams_ret := none, stream_list_empty := true,
            open_ok := true, flock_errno := some er, seek_ok := true,
            write_streams_ret := none, write_metadata_ret := none,
            finish_write_ret := none }).ret = none) := by
  refine ⟨?_, ?_, ?_⟩
  · intro fp locked fe
    unfold lock_wim
    by_cases h1 : fp = true ∧ locked = false
    · rw [if_pos h1]
      cases fe with
      | none => simp [h1]
      | some er =>
          by_cases h2 : er = EWOULDBLOCK
          · simp [h1, h2]
          · simp [h1, h2]
    · rw [if_neg h1]
      simp only [ne_eq, reduceCtorEq]
      constructor
      · intro h
        simp at h
      · intro ⟨ha, hb, _⟩
        exact absurd ⟨ha, hb⟩ h1
  · intro er her
    unfold lock_wim
    rw [if_pos (show (true = true) ∧ (false = false) from ⟨rfl, rfl⟩)]
    dsimp only
    rw [if_neg her]
  · intro w wf er her hord1 hord2
    unfold overwrite_wim_inplace
    rw [if_neg hord1, if_neg hord2]
    have hlw : (lock_wim true w.wim_locked (some er)).1 = none := by
      unfold lock_wim
      by_cases h1 : w.wim_locked = false
      · rw [if_pos (show (true = true) ∧ w.wim_locked = false from
          ⟨rfl, h1⟩)]
        dsimp only
        rw [if_neg her]
      · rw [if_neg (fun hc => h1 hc.2)]
    rcases hlp : lock_wim true w.wim_locked (some er) with ⟨r, b⟩
    rw [hlp] at hlw
    simp only at hlw
    subst hlw
    simp [hlp, inplace_write_phase]
/-- C1 witness: the amended parallel hash-check characterization at a
concrete stream. -/
theorem claim_C1_witness :
    (main_writer_check_stream_hash sampleExt sampleStream sampleStream.udata
        = .ok (sampleExt.sha1 sampleStream.udata)
      ↔ sampleStream.hash = sampleExt.sha1 sampleStream.udata)
    ∧ (main_writer_check_stream_hash sampleExt sampleStream
          sampleStream.udata = .error .invalid_resource_hash
      ↔ sampleStream.hash ≠ sampleExt.sha1 sampleStream.udata) :=
  claim_C1 sampleExt sampleStream sampleStream.udata

/-- C8 witness: the chunk-table geometry at the concrete 5-byte stream. -/
theorem claim_C8_witness :
    0 < wim_resource_size sampleStream
    ∧ wim_resource_size sampleStream < 2 ^ 60
    ∧ sampleFile.pos = sampleFile.bytes.length
    ∧ (wim_resource_size sampleStream
        ≤ (begin_wim_resource_chunk_tab sampleStream sampleFile 10).1.num_chunks
            * WIM_CHUNK_SIZE
      ∧ ((begin_wim_resource_chunk_tab sampleStream sampleFile 10).1.num_chunks
            - 1) * WIM_CHUNK_SIZE < wim_resource_size sampleStream
      ∧ (wim_resource_size sampleStream ≥ 2 ^ 32 →
          (begin_wim_resource_chunk_tab sampleStream sampleFile
            10).1.bytes_per_chunk_entry = 8)
      ∧ (wim_resource_size sampleStream < 2 ^ 32 →
          (begin_wim_resource_chunk_tab sampleStream sampleFile
            10).1.bytes_per_chunk_entry = 4)
      ∧ (begin_wim_resource_chunk_tab sampleStream sampleFile
            10).1.table_disk_size
          = (begin_wim_resource_chunk_tab sampleStream sampleFile
              10).1.bytes_per_chunk_entry
            * ((begin_wim_resource_chunk_tab sampleStream sampleFile
                10).1.num_chunks - 1)
      ∧ (begin_wim_resource_chunk_tab sampleStream sampleFile 10).2.bytes
          = sampleFile.bytes ++ List.replicate
              (begin_wim_resource_chunk_tab sampleStream sampleFile
                10).1.table_disk_size 0
      ∧ ((begin_wim_resource_chunk_tab sampleStream sampleFile
            10).1.num_chunks = 1 →
          (begin_wim_resource_chunk_tab sampleStream sampleFile
            10).1.table_disk_size = 0)) :=
  ⟨by decide, by decide, by decide,
   claim_C8 sampleStream sampleFile 10 (by decide) (by decide) (by decide)⟩

/-- C9 witness: finalizing a concrete two-chunk table. -/
theorem claim_C9_witness :
    twoChunkTab.offsets.length = twoChunkTab.num_chunks
    ∧ 1 ≤ twoChunkTab.num_chunks
    ∧ twoChunkTab.table_disk_size
        = twoChunkTab.bytes_per_chunk_entry * (twoChunkTab.num_chunks - 1)
    ∧ twoChunkTab.file_offset + twoChunkTab.table_disk_size
        ≤ sampleFile.bytes.length
    ∧ ((((finish_wim_resource_chunk_tab twoChunkTab
            sampleFile).1.bytes.drop twoChunkTab.file_offset).take
              twoChunkTab.table_disk_size
          = (twoChunkTab.offsets.drop 1).flatMap
              (leBytes twoChunkTab.bytes_per_chunk_entry))
      ∧ (twoChunkTab.offsets.drop 1).length = twoChunkTab.num_chunks - 1
      ∧ (finish_wim_resource_chunk_tab twoChunkTab sampleFile).2
          = twoChunkTab.cur_offset + twoChunkTab.table_disk_size
      ∧ (finish_wim_resource_chunk_tab twoChunkTab sampleFile).1.pos
          = (finish_wim_resource_chunk_tab twoChunkTab
              sampleFile).1.bytes.length) :=
  ⟨by decide, by decide, by decide, by decide,
   claim_C9 twoChunkTab sampleFile (by decide) (by decide) (by decide)
     (by decide) (by decide)⟩

/-- C10 witness: a non-`EWOULDBLOCK` errno (EINTR = 4) at concrete
inputs. -/
theorem claim_C10_witness :
    (4 : Nat) ≠ EWOULDBLOCK
    ∧ lock_wim true false (some 4) = (none, false)
    ∧ (overwrite_wim_inplace sampleWim {}
        { find_streams_ret := none, stream_list_empty := true,
          open_ok := true, flock_errno := some 4, seek_ok := true,
          write_streams_ret := none, write_metadata_ret := none,
          finish_write_ret := none }).ret = none :=
  ⟨by decide, claim_C10.2.1 4 (by decide),
   claim_C10.2.2 sampleWim {} 4 (by decide) (by decide) (by decide)⟩

end Wimlib
